import Mathlib

/-!
# Verification of the Cheeko metadata-acquisition routine and its companions

This development is a shallow embedding, in Lean, of the Python sources of the
repository:

* `agent/agent.py` — `get_user_metadata` / `check_participant`, the
  participant-metadata resolver;
* `agent/server.py` — `create_token`, the aiohttp token endpoint;
* `api/token.py` — `handler`, the serverless token endpoint variant;
* `agent/spy_tools.py` — the three spy tools and their degradation logic.

Python strings are modelled as `List Char` (`Str`).  Python `json.loads` is
modelled by an executable recursive-descent parser over `Str` producing the
`Json` type below; `json.dumps` by an executable printer.  Machine-level
details that the sources never rely on (IEEE float arithmetic, Unicode case
folding outside ASCII, surrogate-pair decoding) are modelled by the natural
total approximations noted at each definition.
-/

/-- Python strings are modelled as lists of characters. -/
abbrev Str := List Char

/-- Python `needle in hay` (substring containment) on strings. -/
def containsList (needle : Str) : Str → Bool
  | [] => needle.isEmpty
  | c :: rest => needle.isPrefixOf (c :: rest) || containsList needle rest

/-- Python `s.startswith(pre)`. -/
def pyStartsWith (s pre : Str) : Bool := pre.isPrefixOf s

/-- Python `s.lower()` (ASCII case folding; the identities in this code base
are ASCII). -/
def pyLower (s : Str) : Str := s.map Char.toLower

/-- Python `s.replace(old, new)` for a one-character `old`. -/
def pyReplaceChar (s : Str) (old : Char) (new : Str) : Str :=
  s.flatMap fun c => if c = old then new else [c]

/-- The JSON values produced by Python `json.loads`.

`num isFloat m s` denotes the decimal number `m / 10 ^ s`; `isFloat` records
whether the source literal had a fraction or exponent (Python `float` versus
`int`).  `nan` and `inf` model the non-standard constants `NaN`,
`Infinity` and `-Infinity` accepted by `json.loads`.  Objects are stored the
way Python dicts are after parsing: key order is first occurrence, the value
of a duplicated key is the last one. -/
inductive Json where
  | null : Json
  | bool (b : Bool) : Json
  | num (isFloat : Bool) (m : Int) (s : Nat) : Json
  | nan : Json
  | inf (neg : Bool) : Json
  | str (s : Str) : Json
  | arr (elems : List Json) : Json
  | obj (members : List (Str × Json)) : Json
  deriving Repr

instance : Inhabited Json := ⟨Json.null⟩

mutual

/-- Structural equality test for `Json` (deriving is unavailable for this
nested inductive). -/
def Json.beq : Json → Json → Bool
  | .null, .null => true
  | .bool a, .bool b => a = b
  | .num f1 m1 s1, .num f2 m2 s2 => f1 = f2 ∧ m1 = m2 ∧ s1 = s2
  | .nan, .nan => true
  | .inf a, .inf b => a = b
  | .str a, .str b => a = b
  | .arr a, .arr b => Json.beqElems a b
  | .obj a, .obj b => Json.beqMembers a b
  | _, _ => false

def Json.beqElems : List Json → List Json → Bool
  | [], [] => true
  | a :: as, b :: bs => Json.beq a b && Json.beqElems as bs
  | _, _ => false

def Json.beqMembers : List (Str × Json) → List (Str × Json) → Bool
  | [], [] => true
  | (k1, v1) :: as, (k2, v2) :: bs => k1 = k2 && Json.beq v1 v2 && Json.beqMembers as bs
  | _, _ => false

end

mutual

theorem Json.beq_iff : ∀ a b : Json, Json.beq a b = true ↔ a = b
  | .null, b => by cases b <;> simp [Json.beq]
  | .bool a, b => by cases b <;> simp [Json.beq]
  | .num f m s, b => by cases b <;> simp [Json.beq]
  | .nan, b => by cases b <;> simp [Json.beq]
  | .inf a, b => by cases b <;> simp [Json.beq]
  | .str a, b => by cases b <;> simp [Json.beq]
  | .arr a, b => by
      cases b <;> simp [Json.beq]
      exact Json.beqElems_iff a _
  | .obj a, b => by
      cases b <;> simp [Json.beq]
      exact Json.beqMembers_iff a _

theorem Json.beqElems_iff : ∀ a b : List Json, Json.beqElems a b = true ↔ a = b
  | [], b => by cases b <;> simp [Json.beqElems]
  | x :: xs, b => by
      cases b with
      | nil => simp [Json.beqElems]
      | cons y ys =>
        simp [Json.beqElems, Json.beq_iff x y, Json.beqElems_iff xs ys]

theorem Json.beqMembers_iff : ∀ a b : List (Str × Json), Json.beqMembers a b = true ↔ a = b
  | [], b => by cases b <;> simp [Json.beqMembers]
  | (k, v) :: xs, b => by
      cases b with
      | nil => simp [Json.beqMembers]
      | cons y ys =>
        obtain ⟨k2, v2⟩ := y
        simp [Json.beqMembers, Json.beq_iff v v2, Json.beqMembers_iff xs ys]

end

instance : DecidableEq Json := fun a b =>
  if h : Json.beq a b = true then isTrue ((Json.beq_iff a b).mp h)
  else isFalse (fun he => h ((Json.beq_iff a b).mpr he))

/-- Python truthiness (`if v:`) of a parsed JSON value.  An empty string,
empty list, empty dict, `0`, `0.0`, `False` and `None` are falsy; `NaN` and
the infinities are truthy. -/
def Json.truthy : Json → Bool
  | .null => false
  | .bool b => b
  | .num _ m _ => m ≠ 0
  | .nan => true
  | .inf _ => true
  | .str s => ¬ s.isEmpty
  | .arr elems => ¬ elems.isEmpty
  | .obj members => ¬ members.isEmpty

/-- A Python dict with `Str` keys, as an insertion-ordered association list
with unique keys. -/
abbrev Dict := List (Str × Json)

/-- Python `d[k]` as an optional lookup. -/
def dget (d : Dict) (k : Str) : Option Json :=
  match d with
  | [] => none
  | (k', v) :: rest => if k' = k then some v else dget rest k

/-- Python `d[k] = v`: overwrite in place if the key exists (keeping its
position), append otherwise. -/
def dset (d : Dict) (k : Str) (v : Json) : Dict :=
  match d with
  | [] => [(k, v)]
  | (k', v') :: rest => if k' = k then (k', v) :: rest else (k', v') :: dset rest k v

/-- Build a Python dict from a key/value sequence (later duplicates
overwrite, order of first occurrence is kept) — the semantics of JSON object
construction and of dict comprehensions. -/
def pyDict (kvs : List (Str × Json)) : Dict :=
  kvs.foldl (fun d kv => dset d kv.1 kv.2) []

/-- Python `d.update(m)` for a dict `m`. -/
def pyUpdate (d : Dict) (m : Dict) : Dict :=
  m.foldl (fun d kv => dset d kv.1 kv.2) d

/-- The keys of a dict are distinct. -/
def NodupKeys (d : Dict) : Prop := (d.map Prod.fst).Nodup

theorem dget_dset (d : Dict) (k : Str) (v : Json) (k' : Str) :
    dget (dset d k v) k' = if k = k' then some v else dget d k' := by
  induction d with
  | nil => by_cases h : k = k' <;> simp [dset, dget, h]
  | cons kv rest ih =>
    obtain ⟨k₀, v₀⟩ := kv
    by_cases h0 : k₀ = k
    · subst h0
      by_cases h1 : k₀ = k' <;> simp [dset, dget, h1]
    · by_cases h1 : k₀ = k'
      · subst h1
        have : ¬ k = k₀ := fun h => h0 h.symm
        simp [dset, dget, h0, this]
      · simp [dset, dget, h0, h1, ih]

theorem dget_eq_none (d : Dict) (k : Str) (h : k ∉ d.map Prod.fst) : dget d k = none := by
  induction d with
  | nil => rfl
  | cons kv rest ih =>
    obtain ⟨k₀, v₀⟩ := kv
    simp only [List.map_cons, List.mem_cons] at h
    push_neg at h
    have hne : ¬ (k₀ = k) := fun he => h.1 he.symm
    simp [dget, hne, ih h.2]

theorem keys_dset (d : Dict) (k : Str) (v : Json) :
    (dset d k v).map Prod.fst = if k ∈ d.map Prod.fst then d.map Prod.fst
      else d.map Prod.fst ++ [k] := by
  induction d with
  | nil => simp [dset]
  | cons kv rest ih =>
    obtain ⟨k₀, v₀⟩ := kv
    by_cases h0 : k₀ = k
    · subst h0; simp [dset]
    · have h0' : ¬ k = k₀ := fun h => h0 h.symm
      by_cases hmem : k ∈ rest.map Prod.fst <;>
        simp [dset, h0, h0', hmem, ih]

theorem nodupKeys_dset (d : Dict) (k : Str) (v : Json) (h : NodupKeys d) :
    NodupKeys (dset d k v) := by
  unfold NodupKeys at *
  rw [keys_dset]
  by_cases hmem : k ∈ d.map Prod.fst
  · simpa [hmem] using h
  · simp only [hmem, if_false]
    refine List.Nodup.append h (by simp) ?_
    intro a ha hb
    simp only [List.mem_singleton] at hb
    subst hb
    exact hmem ha

theorem nodupKeys_pyDict (kvs : List (Str × Json)) : NodupKeys (pyDict kvs) := by
  suffices h : ∀ init : Dict, NodupKeys init →
      NodupKeys (kvs.foldl (fun d kv => dset d kv.1 kv.2) init) by
    exact h [] (by simp [NodupKeys])
  induction kvs with
  | nil => intro init h; simpa using h
  | cons kv rest ih =>
    intro init h
    exact ih (dset init kv.1 kv.2) (nodupKeys_dset _ _ _ h)

theorem dget_pyUpdate (d m : Dict) (hm : NodupKeys m) (k : Str) :
    dget (pyUpdate d m) k = match dget m k with
      | some v => some v
      | none => dget d k := by
  induction m generalizing d with
  | nil => simp [pyUpdate, dget]
  | cons kv rest ih =>
    obtain ⟨k₀, v₀⟩ := kv
    unfold NodupKeys at hm
    simp only [List.map_cons] at hm
    have h1 : k₀ ∉ rest.map Prod.fst := (List.nodup_cons.mp hm).1
    have h2 : NodupKeys rest := (List.nodup_cons.mp hm).2
    have step : pyUpdate d ((k₀, v₀) :: rest) = pyUpdate (dset d k₀ v₀) rest := rfl
    rw [step, ih (dset d k₀ v₀) h2]
    by_cases h0 : k₀ = k
    · subst h0
      rw [dget_eq_none rest k₀ h1]
      simp [dget, dget_dset]
    · simp only [dget, h0, if_false]
      cases hgr : dget rest k with
      | some v => simp
      | none => simp [dget_dset, h0]

theorem dget_isSome_dset (d : Dict) (k : Str) (v : Json) (k' : Str)
    (h : (dget d k').isSome) : (dget (dset d k v) k').isSome := by
  rw [dget_dset]
  by_cases hk : k = k' <;> simp [hk, h]

theorem dget_isSome_pyUpdate (d m : Dict) (k : Str)
    (h : (dget d k).isSome) : (dget (pyUpdate d m) k).isSome := by
  induction m generalizing d with
  | nil => simpa [pyUpdate]
  | cons kv rest ih =>
    have step : pyUpdate d (kv :: rest) = pyUpdate (dset d kv.1 kv.2) rest := rfl
    rw [step]
    exact ih (dset d kv.1 kv.2) (dget_isSome_dset _ _ _ _ h)

/-! ## A model of Python `json.loads` -/

/-- The whitespace characters `json` skips between tokens. -/
def isWsChar (c : Char) : Bool := c = ' ' || c = '\t' || c = '\n' || c = '\r'

def skipWs (cs : Str) : Str := cs.dropWhile isWsChar

def isDigitCh (c : Char) : Bool := decide (48 ≤ c.toNat ∧ c.toNat ≤ 57)

def digitsVal (ds : Str) : Nat := ds.foldl (fun acc c => acc * 10 + (c.toNat - 48)) 0

def hexVal (c : Char) : Option Nat :=
  if isDigitCh c then some (c.toNat - 48)
  else if 97 ≤ c.toNat ∧ c.toNat ≤ 102 then some (c.toNat - 87)
  else if 65 ≤ c.toNat ∧ c.toNat ≤ 70 then some (c.toNat - 55)
  else none

/-- The opening and closing curly bracket characters. -/
def lbrace : Char := Char.ofNat 123

def rbrace : Char := Char.ofNat 125

/-- Decode one escape sequence (the part after the backslash): the decoded
character and the rest of the input.  Faithful to Python strict-mode
decoding (`\uXXXX` included, surrogate pairs combined); as an
approximation, a lone surrogate escape is rejected rather than kept. -/
def escDecode : Str → Option (Char × Str)
  | [] => none
  | e :: rest1 =>
    if e = 'u' then
      match rest1 with
      | h1 :: h2 :: h3 :: h4 :: rest2 =>
        match hexVal h1, hexVal h2, hexVal h3, hexVal h4 with
        | some a, some b, some c1, some d =>
          let code := ((a * 16 + b) * 16 + c1) * 16 + d
          if 0xD800 ≤ code ∧ code ≤ 0xDBFF then
            match rest2 with
            | e2 :: u2 :: g1 :: g2 :: g3 :: g4 :: rest3 =>
              if e2 = '\\' ∧ u2 = 'u' then
                match hexVal g1, hexVal g2, hexVal g3, hexVal g4 with
                | some a2, some b2, some c2, some d2 =>
                  let code2 := ((a2 * 16 + b2) * 16 + c2) * 16 + d2
                  if 0xDC00 ≤ code2 ∧ code2 ≤ 0xDFFF then
                    some (Char.ofNat (0x10000 + (code - 0xD800) * 0x400 + (code2 - 0xDC00)),
                      rest3)
                  else none
                | _, _, _, _ => none
              else none
            | _ => none
          else if 0xDC00 ≤ code ∧ code ≤ 0xDFFF then none
          else some (Char.ofNat code, rest2)
        | _, _, _, _ => none
      | _ => none
    else
      if e = '"' then some ('"', rest1)
      else if e = '\\' then some ('\\', rest1)
      else if e = '/' then some ('/', rest1)
      else if e = 'b' then some (Char.ofNat 8, rest1)
      else if e = 'f' then some (Char.ofNat 12, rest1)
      else if e = 'n' then some ('\n', rest1)
      else if e = 'r' then some ('\r', rest1)
      else if e = 't' then some ('\t', rest1)
      else none

/-- Parse the body of a JSON string literal, after the opening quote, up to
and including the closing quote; returns the decoded content and the rest
of the input.  Raw control characters are rejected (Python strict mode).
`fuel` bounds the number of steps; every step consumes at least one input
character, so the caller-supplied `input length + 1` always suffices. -/
def parseStrBody : Nat → Str → Option (Str × Str)
  | 0, _ => none
  | _ + 1, [] => none
  | fuel + 1, c :: rest =>
    if c = '"' then some ([], rest)
    else if c = '\\' then
      match escDecode rest with
      | some (ch, rest2) =>
        match parseStrBody fuel rest2 with
        | some p => some (ch :: p.1, p.2)
        | none => none
      | none => none
    else if c.toNat < 32 then none
    else
      match parseStrBody fuel rest with
      | some p => some (c :: p.1, p.2)
      | none => none

/-- Assemble a parsed numeric literal into a `Json` number.
`ids`/`fds` are the integer and fraction digit runs, `ex` the signed decimal
exponent. -/
def mkNum (neg : Bool) (ids fds : Str) (ex : Option (Bool × Nat)) : Json :=
  let m0 : Int := Int.ofNat (digitsVal (ids ++ fds))
  let m1 : Int := if neg then -m0 else m0
  let s0 : Nat := fds.length
  let isF : Bool := ¬ fds.isEmpty || ex.isSome
  match ex with
  | none => .num isF m1 s0
  | some (eneg, e) =>
    if eneg then .num isF m1 (s0 + e)
    else .num isF (m1 * (10 : Int) ^ e) s0

/-- Split an optional exponent sign off the front of the digits. -/
def expSign : Str → Bool × Str
  | [] => (false, [])
  | c :: r =>
    if c = '+' then (false, r)
    else if c = '-' then (true, r)
    else (false, c :: r)

/-- Split an optional leading minus sign off a numeric literal. -/
def negSign : Str → Bool × Str
  | [] => (false, [])
  | c :: r => if c = '-' then (true, r) else (false, c :: r)

/-- Parse the optional exponent of a numeric literal and assemble it. -/
def finishNum (neg : Bool) (ids fds : Str) (cs : Str) : Option (Json × Str) :=
  match cs with
  | e :: rest =>
    if e = 'e' ∨ e = 'E' then
      if ((expSign rest).2.span isDigitCh).1.isEmpty then none
      else some (mkNum neg ids fds
          (some ((expSign rest).1, digitsVal ((expSign rest).2.span isDigitCh).1)),
        ((expSign rest).2.span isDigitCh).2)
    else some (mkNum neg ids fds none, e :: rest)
  | [] => some (mkNum neg ids fds none, [])

/-- Parse a JSON numeric literal (sign, integer part with the leading-zero
rule, optional fraction, optional exponent). -/
def parseNumber (cs : Str) : Option (Json × Str) :=
  if (((negSign cs).2.span isDigitCh).1).isEmpty then none
  else if ((negSign cs).2.span isDigitCh).1.length > 1 ∧
      ((negSign cs).2.span isDigitCh).1.head? = some '0' then none
  else
    match ((negSign cs).2.span isDigitCh).2 with
    | [] => finishNum (negSign cs).1 ((negSign cs).2.span isDigitCh).1 [] []
    | c :: rest =>
      if c = '.' then
        if ((rest.span isDigitCh).1).isEmpty then none
        else finishNum (negSign cs).1 ((negSign cs).2.span isDigitCh).1
          (rest.span isDigitCh).1 (rest.span isDigitCh).2
      else finishNum (negSign cs).1 ((negSign cs).2.span isDigitCh).1 [] (c :: rest)

mutual

/-- Parse one JSON value; `fuel` bounds recursion depth (`jsonLoads` supplies
more than any input can consume).  The input must start with a non-blank
character. -/
def parseVal : Nat → Str → Option (Json × Str)
  | 0, _ => none
  | fuel + 1, cs =>
    match cs with
    | [] => none
    | c :: rest =>
      if c = '"' then
        match parseStrBody (rest.length + 1) rest with
        | some p => some (.str p.1, p.2)
        | none => none
      else if c = '[' then
        match skipWs rest with
        | [] => none
        | c1 :: r =>
          if c1 = ']' then some (.arr [], r)
          else
            match parseElemsCont fuel (c1 :: r) with
            | some p => some (.arr p.1, p.2)
            | none => none
      else if c = lbrace then
        match skipWs rest with
        | [] => none
        | c1 :: r =>
          if c1 = rbrace then some (.obj [], r)
          else
            match parseMembersCont fuel (c1 :: r) with
            | some p => some (.obj (pyDict p.1), p.2)
            | none => none
      else if pyStartsWith (c :: rest) "true".toList then some (.bool true, rest.drop 3)
      else if pyStartsWith (c :: rest) "false".toList then some (.bool false, rest.drop 4)
      else if pyStartsWith (c :: rest) "null".toList then some (.null, rest.drop 3)
      else if pyStartsWith (c :: rest) "NaN".toList then some (.nan, rest.drop 2)
      else if pyStartsWith (c :: rest) "Infinity".toList then some (.inf false, rest.drop 7)
      else if pyStartsWith (c :: rest) "-Infinity".toList then some (.inf true, rest.drop 8)
      else parseNumber (c :: rest)

/-- Parse the elements of a non-empty array, starting at the first element
(whitespace already skipped), through the closing bracket. -/
def parseElemsCont : Nat → Str → Option (List Json × Str)
  | 0, _ => none
  | fuel + 1, cs =>
    match parseVal fuel cs with
    | none => none
    | some (v, r1) =>
      match skipWs r1 with
      | ',' :: r2 =>
        match parseElemsCont fuel (skipWs r2) with
        | some p => some (v :: p.1, p.2)
        | none => none
      | c1 :: r2 => if c1 = ']' then some ([v], r2) else none
      | [] => none

/-- Parse the members of a non-empty object, starting at the first key
(whitespace already skipped), through the closing brace. -/
def parseMembersCont : Nat → Str → Option (List (Str × Json) × Str)
  | 0, _ => none
  | fuel + 1, cs =>
    match cs with
    | '"' :: rest =>
      match parseStrBody (rest.length + 1) rest with
      | none => none
      | some (k, r1) =>
        match skipWs r1 with
        | ':' :: r2 =>
          match parseVal fuel (skipWs r2) with
          | none => none
          | some (v, r3) =>
            match skipWs r3 with
            | ',' :: r4 =>
              match parseMembersCont fuel (skipWs r4) with
              | some p => some ((k, v) :: p.1, p.2)
              | none => none
            | c1 :: r4 => if c1 = rbrace then some ([(k, v)], r4) else none
            | [] => none
        | _ => none
    | _ => none

end

/-- Python `json.loads`: `none` models a raised `json.JSONDecodeError`. -/
def jsonLoads (s : Str) : Option Json :=
  match parseVal (s.length + 1) (skipWs s) with
  | some (v, rest) => if (skipWs rest).isEmpty then some v else none
  | none => none


/-! ## A model of Python `json.dumps` (default options: `ensure_ascii=True`,
item separator `", "`, key separator `": "`) -/

/-- The decimal digits of a natural number, most significant first
(`fuel ≥ n + 1` always suffices, and `natChars` supplies it). -/
def natCharsAux : Nat → Nat → Str
  | 0, _ => []
  | fuel + 1, n =>
    if n < 10 then [Char.ofNat (48 + n)]
    else natCharsAux fuel (n / 10) ++ [Char.ofNat (48 + n % 10)]

/-- The decimal digits of a natural number, most significant first. -/
def natChars (n : Nat) : Str := natCharsAux (n + 1) n

/-- Python `repr` of an `int`. -/
def intChars (m : Int) : Str :=
  if m < 0 then '-' :: natChars m.natAbs else natChars m.natAbs

def hexDigitCh (n : Nat) : Char :=
  if n < 10 then Char.ofNat (48 + n) else Char.ofNat (87 + (n - 10))

/-- The `\uXXXX` escape of a code unit below `0x10000`. -/
def uEscape (n : Nat) : Str :=
  ['\\', 'u', hexDigitCh (n / 4096 % 16), hexDigitCh (n / 256 % 16),
    hexDigitCh (n / 16 % 16), hexDigitCh (n % 16)]

/-- How `json.dumps` emits one character of a string: `"` and `\` and the
named control characters get two-character escapes, other characters outside
`0x20`–`0x7E` get `\uXXXX` escapes (a surrogate pair beyond the BMP),
everything else is emitted verbatim. -/
def escapeChar (c : Char) : Str :=
  if c = '"' then ['\\', '"']
  else if c = '\\' then ['\\', '\\']
  else if c = '\n' then ['\\', 'n']
  else if c = '\t' then ['\\', 't']
  else if c = '\r' then ['\\', 'r']
  else if c = Char.ofNat 8 then ['\\', 'b']
  else if c = Char.ofNat 12 then ['\\', 'f']
  else if c.toNat < 32 then uEscape c.toNat
  else if c.toNat < 127 then [c]
  else if c.toNat < 0x10000 then uEscape c.toNat
  else uEscape (0xD800 + (c.toNat - 0x10000) / 0x400) ++
       uEscape (0xDC00 + (c.toNat - 0x10000) % 0x400)

/-- A string literal as emitted by `json.dumps`. -/
def renderStr (s : Str) : Str := '"' :: s.flatMap escapeChar ++ ['"']

/-- Decimal rendering of the float `m / 10 ^ s` with at least one fractional
digit.  This approximates Python float `repr` (shortest round-tripping
decimal); the well-formedness predicate used by the round-trip theorem
excludes floats, so nothing rests on this approximation. -/
def renderFloat (m : Int) (s : Nat) : Str :=
  if s = 0 then intChars m ++ ['.', '0']
  else
    let sign : Str := if m < 0 then ['-'] else []
    let digits := natChars m.natAbs
    let padded := if digits.length ≤ s then List.replicate (s + 1 - digits.length) '0' ++ digits
      else digits
    sign ++ padded.take (padded.length - s) ++ ['.'] ++ padded.drop (padded.length - s)

mutual

/-- Python `json.dumps` with its default options, characterwise. -/
def render : Json → Str
  | .null => "null".toList
  | .bool true => "true".toList
  | .bool false => "false".toList
  | .num false m _ => intChars m
  | .num true m s => renderFloat m s
  | .nan => "NaN".toList
  | .inf false => "Infinity".toList
  | .inf true => "-Infinity".toList
  | .str s => renderStr s
  | .arr [] => "[]".toList
  | .arr (x :: xs) => '[' :: (render x ++ renderElemsTail xs ++ [']'])
  | .obj [] => [lbrace, rbrace]
  | .obj (kv :: kvs) => lbrace :: (renderMember kv ++ renderMembersTail kvs ++ [rbrace])

def renderMember : (Str × Json) → Str
  | (k, v) => renderStr k ++ ':' :: ' ' :: render v

def renderElemsTail : List Json → Str
  | [] => []
  | x :: xs => ',' :: ' ' :: (render x ++ renderElemsTail xs)

def renderMembersTail : List (Str × Json) → Str
  | [] => []
  | kv :: kvs => ',' :: ' ' :: (renderMember kv ++ renderMembersTail kvs)

end

/-- Python `json.dumps` on a parsed value. -/
def jsonDumps (v : Json) : Str := render v


/-! ## Well-formed values and sizes for the dumps/loads round trip -/

/-- The characters that may legitimately follow a rendered number. -/
def NumDelim (cs : Str) : Prop :=
  ∀ c, cs.head? = some c → isDigitCh c = false ∧ c ≠ '.' ∧ c ≠ 'e' ∧ c ≠ 'E'

/-- Characters that `json.dumps` emits verbatim inside a string literal. -/
def printableNoEsc (c : Char) : Bool :=
  decide (32 ≤ c.toNat ∧ c.toNat ≤ 126 ∧ c ≠ '"' ∧ c ≠ '\\')

mutual

/-- Recursion budget consumed by the parser on a value: one unit per value
node plus one per element/member loop step. -/
def fsizeV : Json → Nat
  | .arr xs => 1 + fsizeL xs
  | .obj kvs => 1 + fsizeM kvs
  | _ => 1

def fsizeL : List Json → Nat
  | [] => 0
  | x :: xs => 1 + fsizeV x + fsizeL xs

def fsizeM : List (Str × Json) → Nat
  | [] => 0
  | kv :: kvs => 1 + fsizeV kv.2 + fsizeM kvs

end

mutual

/-- The class of JSON values for which the `dumps`/`loads` round trip is
proved: plain integers, booleans, `null`, printable-ASCII strings without
quote or backslash characters, and arrays/objects of such values with
distinct keys. -/
def wfJson : Json → Bool
  | .null => true
  | .bool _ => true
  | .num isF _ s => !isF && s = 0
  | .nan => false
  | .inf _ => false
  | .str s => s.all printableNoEsc
  | .arr xs => wfElems xs
  | .obj kvs => wfMembers kvs && decide ((kvs.map Prod.fst).Nodup)

def wfElems : List Json → Bool
  | [] => true
  | x :: xs => wfJson x && wfElems xs

def wfMembers : List (Str × Json) → Bool
  | [] => true
  | (k, v) :: kvs => k.all printableNoEsc && wfJson v && wfMembers kvs

end

/-! ## The metadata resolver (`get_user_metadata` / `check_participant`,
`agent/agent.py` lines 24–105) -/

/-- The fields of a LiveKit remote participant that the resolver reads. -/
structure Participant where
  identity : Str
  name : Str
  metadata : Str
  deriving Repr, DecidableEq

/-- The uncaught exception the metadata branch can raise: `data.items()` on
a non-dict parse result (`json.loads` can return lists, strings, numbers,
booleans or `None`, none of which has `.items`). -/
inductive PyErr where
  | attributeError
  deriving Repr, DecidableEq

def nameKey : Str := "name".toList

def bossName : Str := "Boss".toList

/-- The placeholder display names rejected by line 47 (exact, case-sensitive
comparison — `participant.name not in ["User", "null", "undefined"]`). -/
def placeholderNames : List Str := ["User".toList, "null".toList, "undefined".toList]

/-- The `result` dict initialised at lines 28–34. -/
def defaultProfile : Dict :=
  [(nameKey, .str bossName),
   ("city".toList, .str "India".toList),
   ("state".toList, .str []),
   ("profession".toList, .str "Professional".toList),
   ("interests".toList, .str "Success".toList)]

/-- The resolver's mutable state: the `result` dict plus the
`metadata_event` flag. -/
structure ResolverState where
  result : Dict
  metadataEventSet : Bool
  deriving Repr, DecidableEq

def initState : ResolverState := ⟨defaultProfile, false⟩

/-- Line 39: `participant.identity.startswith("agent") or "agent" in
participant.identity.lower()`. -/
def isAgentP (p : Participant) : Bool :=
  pyStartsWith p.identity "agent".toList ||
    containsList "agent".toList (pyLower p.identity)

/-- Lines 46–49: adopt a non-empty, non-placeholder display name as the
profile's `name`. -/
def nameAdopt (p : Participant) (d : Dict) : Dict :=
  if ¬ p.name.isEmpty ∧ p.name ∉ placeholderNames then dset d nameKey (.str p.name) else d

/-- Lines 63–75 of `check_participant`: the fall-through after the metadata
parse failed or no metadata string is present.  (`result["name"]` always
exists in reachable states; a hypothetically missing key is treated as
non-default here, where Python would raise `KeyError`.) -/
def afterMetaFail (p : Participant) (st : ResolverState) : Except PyErr Bool × ResolverState :=
  if dget st.result nameKey ≠ some (Json.str bossName) then
    if p.metadata.isEmpty then (.ok false, st)
    else (.ok true, st)
  else (.ok false, st)

/-- Lines 36–75 of `agent/agent.py` (`check_participant`).  Returns the
Python return value (or the uncaught exception) together with the state
after the call; profile mutations performed before a raise persist. -/
def checkParticipant (p : Participant) (st : ResolverState) :
    Except PyErr Bool × ResolverState :=
  if isAgentP p then (.ok false, st)
  else
    let r1 := nameAdopt p st.result
    if ¬ p.metadata.isEmpty then
      match jsonLoads p.metadata with
      | some (.obj kvs) =>
        (.ok true, ⟨pyUpdate r1 (kvs.filter fun kv => kv.2.truthy), true⟩)
      | some _ => (.error .attributeError, ⟨r1, st.metadataEventSet⟩)
      | none => afterMetaFail p ⟨r1, st.metadataEventSet⟩
    else afterMetaFail p ⟨r1, st.metadataEventSet⟩

/-- `for p in ctx.room.remote_participants.values(): if check_participant(p):
return result` — the synchronous roster scan (lines 88–91 and 97–99).  An
exception from a check propagates. -/
def scanRoster : List Participant → ResolverState → Except PyErr (Bool × ResolverState)
  | [], st => .ok (false, st)
  | p :: ps, st =>
    match checkParticipant p st with
    | (.error e, _) => .error e
    | (.ok true, st') => .ok (true, st')
    | (.ok false, st') => scanRoster ps st'

/-- One observable occurrence during the wait loop: either an event callback
firing (`participant_connected` / `participant_metadata_changed`, lines
78–86, both of which just run `check_participant` and discard its result;
an exception inside a callback is swallowed by the event emitter), or one
iteration of the 0.5-second polling scan over the current roster.  The
number of `poll` steps is bounded by the timeout; the concrete bound is
irrelevant to every claim, so traces are arbitrary finite lists. -/
inductive Step where
  | event (p : Participant)
  | poll (roster : List Participant)
  deriving Repr

/-- Lines 93–105: the polling loop (with interleaved event callbacks).
Running out of steps is the timeout, which returns the accumulated
`result`. -/
def resolverLoop : List Step → ResolverState → Except PyErr Dict
  | [], st => .ok st.result
  | .event p :: rest, st => resolverLoop rest (checkParticipant p st).2
  | .poll roster :: rest, st =>
    match scanRoster roster st with
    | .error e => .error e
    | .ok (true, st') => .ok st'.result
    | .ok (false, st') =>
      if st'.metadataEventSet then .ok st'.result else resolverLoop rest st'

/-- `get_user_metadata` (lines 24–105): scan the initial roster, then run
the wait loop over the given trace. -/
def getUserMetadata (initial : List Participant) (steps : List Step) : Except PyErr Dict :=
  match scanRoster initial initState with
  | .error e => .error e
  | .ok (true, st) => .ok st.result
  | .ok (false, st) => resolverLoop steps st

def stepParts : Step → List Participant
  | .event p => [p]
  | .poll roster => roster

/-- Every participant observation a run makes. -/
def traceParts (initial : List Participant) (steps : List Step) : List Participant :=
  initial ++ steps.flatMap stepParts

/-! ## Token endpoints (`agent/server.py` `create_token`,
`api/token.py` `handler`) -/

/-- The observable output of `create_token`: the JSON body fields plus the
claims set on the access token before signing (the JWT encoding itself is
the upstream SDK's). -/
structure TokenResult where
  identity : Str
  roomName : Str
  tokenName : Json
  tokenMetadata : Option Str
  deriving Repr, DecidableEq

/-- Lines 62–117 of `agent/server.py` (`create_token`) on the success path
(LiveKit credentials configured).  `uuidHex` is the environment-supplied
`uuid.uuid4().hex` string; `userData` is the parsed `userDetails` value of
the request body (`none` for the GET route).  `user_data and
isinstance(user_data, dict)` is true exactly for a non-empty JSON object. -/
def createToken (uuidHex : Str) (userData : Option Json) : TokenResult :=
  let sessionId := uuidHex.take 8
  match userData with
  | some (.obj (kv :: kvs)) =>
    { identity := "user-".toList ++ sessionId
      roomName := "cheeko-room-".toList ++ sessionId
      tokenName := (dget (kv :: kvs) nameKey).getD (.str "User".toList)
      tokenMetadata := some (jsonDumps (.obj (kv :: kvs))) }
  | _ =>
    { identity := "user-".toList ++ sessionId
      roomName := "cheeko-room-".toList ++ sessionId
      tokenName := .str "User".toList
      tokenMetadata := none }

/-- The observable output of the serverless `handler` (`api/token.py`):
status code plus the room and identity fields of a successful body. -/
structure HandlerResponse where
  statusCode : Nat
  room : Option Str
  identity : Option Str
  deriving Repr, DecidableEq

/-- `api/token.py` lines 14–92 (`handler`): only GET is allowed (405
otherwise), 500 when the LiveKit credentials are missing, and on success a
token for the fixed room `"cheeko-room"` with a fresh identity. -/
def tokenHandler (method : Str) (credsOk : Bool) (uuidHex : Str) : HandlerResponse :=
  if method ≠ "GET".toList then ⟨405, none, none⟩
  else if ¬ credsOk then ⟨500, none, none⟩
  else ⟨200, some "cheeko-room".toList, some ("user-".toList ++ uuidHex.take 8)⟩

/-! ## Spy tools (`agent/spy_tools.py`) -/

/-- The apostrophe character (several canned strings contain one). -/
def apoc : Char := Char.ofNat 39

/-- A Python exception as seen by the tools' handlers: `GithubException`
(with its HTTP status) is caught separately in `get_github_activity`;
everything else is caught as `Exception` and reported by
`type(e).__name__`. -/
inductive PyExc where
  | github (status : Int) (message : Str)
  | other (typeName : Str) (message : Str)
  deriving Repr, DecidableEq

def PyExc.typeName : PyExc → Str
  | .github _ _ => "GithubException".toList
  | .other t _ => t

/-- A string-valued Python dict (for header dicts). -/
def sset (d : List (Str × Str)) (k v : Str) : List (Str × Str) :=
  match d with
  | [] => [(k, v)]
  | (k', v') :: rest => if k' = k then (k', v) :: rest else (k', v') :: sset rest k v

/-- `{h['name']: h['value'] for h in headers}`. -/
def sdict (hs : List (Str × Str)) : List (Str × Str) :=
  hs.foldl (fun d kv => sset d kv.1 kv.2) []

/-- `d.get(k, dflt)` on a string dict. -/
def sget (d : List (Str × Str)) (k dflt : Str) : Str :=
  match d with
  | [] => dflt
  | (k', v) :: rest => if k' = k then v else sget rest k dflt

/-- `s[:n] + '...' if len(s) > n else s`. -/
def truncTo (n : Nat) (s : Str) : Str :=
  if s.length > n then s.take n ++ "...".toList else s

/-- One unread message, as its `payload.headers` name/value list (the data
the two Gmail API calls of the tool deliver for it). -/
abbrev MsgHeaders := List (Str × Str)

def emailNoAccessStr : Str :=
  "Oh, you haven".toList ++ apoc ::
  "t given me access to your inbox yet. Scared of what I might find? Smart move, coward.".toList

def inboxZeroStr : Str :=
  "Inbox zero? Either you".toList ++ apoc :: "re actually productive, or you".toList ++ apoc ::
  "ve been ignoring everything and marked it all as read. I suspect the latter.".toList

def emailErrPre : Str :=
  ("Your inbox is giving me anxiety errors. I tried to check your email, " ++
   "but your digital life is as broken as your code. Error: ").toList

/-- One line of the unread-email report (`enumerate(summaries, 1)` supplies
`i`). -/
def emailLine (i : Nat) (hs : MsgHeaders) : Str :=
  let hd := sdict hs
  let fromF := truncTo 40 (sget hd "From".toList "Unknown".toList)
  let subjF := truncTo 50 (sget hd "Subject".toList "No Subject".toList)
  natChars i ++ ". From: ".toList ++ fromF ++ " | Subject: ".toList ++ subjF ++ ['\n']

def emailBody (msgs : List MsgHeaders) : Str :=
  "Found ".toList ++ natChars msgs.length ++ " unread emails. Here".toList ++ apoc ::
  "s the damage:\n".toList ++
  msgs.enum.flatMap (fun p => emailLine (p.1 + 1) p.2)

/-- `get_unread_email_summary` (`spy_tools.py` lines 203–257).  `fetch` is
the outcome of the external Gmail API interactions inside the `try` block
(`limit` only parametrises that external query).  All failure paths return
strings; nothing escapes. -/
def get_unread_email_summary (googleAuthed : Bool) (_limit : Nat := 5)
    (fetch : Except PyExc (List MsgHeaders)) : Str :=
  if ¬ googleAuthed then emailNoAccessStr
  else
    match fetch with
    | .error e => emailErrPre ++ e.typeName
    | .ok msgs =>
      if msgs.isEmpty then inboxZeroStr
      else emailBody msgs

/-- One calendar event, as the fields the tool reads:
`event['start'].get('dateTime', event['start'].get('date'))` and
`event.get('summary')`. -/
structure CalEvent where
  start : Option Str
  summary : Option Str
  deriving Repr, DecidableEq

def calNoAccessStr : Str :=
  "No calendar access. You".toList ++ apoc ::
  "re either privacy-conscious or hiding something. I".toList ++ apoc ::
  "ll assume you have 47 meetings you".toList ++ apoc :: "re avoiding.".toList

def calEmptyStr : Str :=
  "Empty calendar today. Either you have no responsibilities, or you".toList ++ apoc ::
  "ve given up on planning. Both are concerning for someone who claims to be ".toList ++
  apoc :: "busy".toList ++ apoc :: ".".toList

def calErrPre : Str :=
  "Calendar error. Your schedule is as broken as your time management. Error: ".toList

/-- `datetime.fromisoformat` restricted to what the calendar code consumes:
the hour and minute of a `YYYY-MM-DD?HH:MM…` literal; `none` models the
`ValueError` the stdlib raises on a malformed literal.  (Simplified stdlib
model: the tail after the minutes is not re-validated.) -/
def isoHourMin (s : Str) : Option (Nat × Nat) :=
  match s.take 10, s.drop 10 with
  | [a, b, c, d, e, f, g, h, i, j], t :: h1 :: h2 :: sep :: m1 :: m2 :: _ =>
    if [a, b, c, d].all isDigitCh ∧ e = '-' ∧ [f, g].all isDigitCh ∧ h = '-' ∧
       [i, j].all isDigitCh ∧ (t = 'T' ∨ t = ' ') ∧ sep = ':' ∧
       [h1, h2, m1, m2].all isDigitCh then
      let hh := digitsVal [h1, h2]
      let mm := digitsVal [m1, m2]
      if hh < 24 ∧ mm < 60 then some (hh, mm) else none
    else none
  | _, _ => none

/-- `dt.strftime('%I:%M %p')`. -/
def fmt12 (h m : Nat) : Str :=
  let hr := h % 12
  let hr12 := if hr = 0 then 12 else hr
  (if hr12 < 10 then ['0', Char.ofNat (48 + hr12)] else natChars hr12) ++ ':' ::
  (if m < 10 then ['0', Char.ofNat (48 + m)] else natChars m) ++ ' ' ::
  (if h < 12 then "AM".toList else "PM".toList)

/-- One line of the schedule report; `.error t` is an exception of type `t`
raised while formatting (`'T' in None` is a `TypeError`, a bad ISO literal a
`ValueError`), caught by the tool's `except Exception`. -/
def calEventLine (ev : CalEvent) : Except Str Str :=
  match ev.start with
  | none => .error "TypeError".toList
  | some st =>
    if st.contains 'T' then
      match isoHourMin (pyReplaceChar st 'Z' "+00:00".toList) with
      | none => .error "ValueError".toList
      | some (h, m) =>
        .ok ('-' :: ' ' :: fmt12 h m ++ ':' :: ' ' ::
          (ev.summary.getD "Unnamed Event".toList) ++ ['\n'])
    else
      .ok ('-' :: ' ' :: "All day".toList ++ ':' :: ' ' ::
        (ev.summary.getD "Unnamed Event".toList) ++ ['\n'])

def calLines : List CalEvent → Except Str Str
  | [] => .ok []
  | ev :: rest =>
    match calEventLine ev with
    | .error t => .error t
    | .ok line =>
      match calLines rest with
      | .error t => .error t
      | .ok ls => .ok (line ++ ls)

/-- `check_calendar_today` (`spy_tools.py` lines 259–306).  `fetch` is the
outcome of the external Calendar API call inside the `try` block. -/
def check_calendar_today (googleAuthed : Bool)
    (fetch : Except PyExc (List CalEvent)) : Str :=
  if ¬ googleAuthed then calNoAccessStr
  else
    match fetch with
    | .error e => calErrPre ++ e.typeName
    | .ok evs =>
      if evs.isEmpty then calEmptyStr
      else
        match calLines evs with
        | .error t => calErrPre ++ t
        | .ok body =>
          "Today".toList ++ apoc :: "s schedule (".toList ++ natChars evs.length ++
          " events). Let".toList ++ apoc :: "s see what you".toList ++ apoc ::
          "re avoiding:\n".toList ++ body

/-- A GitHub event, as the fields the tool reads (`created_at` in epoch
seconds UTC; GitHub timestamps carry whole seconds). -/
structure GhEvent where
  type : Str
  repoName : Str
  createdAt : Int
  deriving Repr, DecidableEq

structure GhUser where
  publicRepos : Nat
  followers : Nat
  deriving Repr, DecidableEq

def ghNoAccessStr : Str :=
  "No GitHub access. Can".toList ++ apoc ::
  "t judge your code crimes today. Consider yourself lucky, but I".toList ++ apoc ::
  "m judging you anyway.".toList

def ghNotFoundStr : Str :=
  "User not found. Did your account get banned for pushing terrible code?".toList

def ghApiErrPre : Str :=
  "GitHub API error. Even APIs are tired of your requests. Error: ".toList

def ghFailPre : Str :=
  "GitHub spy failed. Your code quality has infected my API calls. Error: ".toList

/-- The last-commit line: `hours_ago = (utcnow - push_time).total_seconds()
/ 3600`, branched at 1 hour and 24 hours, with Python `int()` truncation
(modelled at second precision with exact integer arithmetic). -/
def ghLastCommitLine (now : Int) (latest : GhEvent) : Str :=
  let delta : Int := now - latest.createdAt
  if delta < 3600 then
    '\n' :: "Last commit: ".toList ++ intChars (Int.tdiv (delta * 60) 3600) ++
    " minutes ago on ".toList ++ latest.repoName ++
    ". Okay, you".toList ++ apoc :: "re actually working. Don".toList ++ apoc ::
    "t let it go to your head.".toList
  else if delta < 3600 * 24 then
    '\n' :: "Last commit: ".toList ++ intChars (Int.tdiv delta 3600) ++
    " hours ago on ".toList ++ latest.repoName ++ ".".toList
  else
    '\n' :: "Last commit: ".toList ++ intChars (Int.tdiv delta 86400) ++
    " days ago on ".toList ++ latest.repoName ++ ". Your GitHub is collecting dust.".toList

def ghVerdict (pushCount : Nat) : Str :=
  if pushCount = 0 then
    ('\n' :: '\n' ::
     ("Verdict: Zero pushes in recent activity. Your GitHub contribution graph " ++
      "looks like a barcode at a liquidation sale.").toList)
  else if pushCount < 3 then
    '\n' :: '\n' ::
    "Verdict: Barely alive. Your contribution graph looks anemic. Ship something.".toList
  else
    '\n' :: '\n' :: "Verdict: Some activity detected. You".toList ++ apoc ::
    "re not completely useless today.".toList

/-- `get_github_activity` (`spy_tools.py` lines 308–375).  `fetch` is the
outcome of the external GitHub API calls inside the `try` block
(`get_user()` and the event listing, of which the code takes the first 15);
`username` is `self._github_username` stored at init. -/
def get_github_activity (githubAuthed : Bool) (username : Str) (now : Int)
    (fetch : Except PyExc (GhUser × List GhEvent)) : Str :=
  if ¬ githubAuthed then ghNoAccessStr
  else
    match fetch with
    | .error (.github status _) =>
      if status = 404 then ghNotFoundStr
      else ghApiErrPre ++ intChars status
    | .error (.other t _) => ghFailPre ++ t
    | .ok (user, allEvents) =>
      let events := allEvents.take 15
      if events.isEmpty then
        "No recent activity for ".toList ++ username ++
        ". Ghost developer detected. Are you even coding, or just pretending to be a developer?".toList
      else
        let pushEvents := events.filter (fun e => e.type = "PushEvent".toList)
        let prCount := (events.filter (fun e => e.type = "PullRequestEvent".toList)).length
        let issueCount := (events.filter (fun e =>
          e.type ∈ ["IssuesEvent".toList, "IssueCommentEvent".toList])).length
        let base :=
          "GitHub audit for ".toList ++ username ++ ":\n".toList ++
          "- Recent pushes: ".toList ++ natChars pushEvents.length ++ ['\n'] ++
          "- Pull requests: ".toList ++ natChars prCount ++ ['\n'] ++
          "- Issues touched: ".toList ++ natChars issueCount ++ ['\n'] ++
          "- Public repos: ".toList ++ natChars user.publicRepos ++ ['\n'] ++
          "- Followers: ".toList ++ natChars user.followers ++ ['\n']
        let withLast :=
          match pushEvents with
          | [] => base
          | latest :: _ => base ++ ghLastCommitLine now latest
        withLast ++ ghVerdict pushEvents.length

/-! ## Resolver lemmas -/

theorem afterMetaFail_state (p : Participant) (st : ResolverState) :
    (afterMetaFail p st).2 = st := by
  unfold afterMetaFail
  split_ifs <;> rfl

theorem checkParticipant_agent (p : Participant) (st : ResolverState)
    (h : isAgentP p = true) : checkParticipant p st = (.ok false, st) := by
  simp [checkParticipant, h]

/-- The spec's eligibility predicate: the identity does not contain
`"agent"` case-insensitively. -/
def eligibleP (p : Participant) : Bool :=
  ! containsList "agent".toList (pyLower p.identity)

theorem containsList_of_isPrefixOf (n h : Str) (hp : n.isPrefixOf h = true) :
    containsList n h = true := by
  cases h with
  | nil =>
    cases n with
    | nil => rfl
    | cons c t => simp [List.isPrefixOf] at hp
  | cons c t => simp [containsList, hp]

theorem isPrefixOf_append_self (l t : Str) : l.isPrefixOf (l ++ t) = true := by
  induction l with
  | nil => cases t <;> rfl
  | cons c rest ih => simp [List.isPrefixOf, ih]

/-- The two disjuncts of the agent test at line 39 collapse: `startswith`
implies the case-insensitive containment, so the code's predicate equals the
spec's (negated) eligibility predicate. -/
theorem isAgentP_eq (p : Participant) : isAgentP p = ! eligibleP p := by
  unfold isAgentP eligibleP
  cases hc : containsList "agent".toList (pyLower p.identity) with
  | true => simp [hc]
  | false =>
    cases hs : pyStartsWith p.identity "agent".toList with
    | false => simp [hs, hc]
    | true =>
      exfalso
      unfold pyStartsWith at hs
      obtain ⟨t, ht⟩ := List.isPrefixOf_iff_prefix.mp hs
      have hlow : pyLower p.identity = "agent".toList ++ pyLower t := by
        rw [← ht]
        unfold pyLower
        rw [List.map_append]
        rfl
      rw [hlow] at hc
      rw [containsList_of_isPrefixOf _ _ (isPrefixOf_append_self _ _)] at hc
      cases hc

theorem scanRoster_agents (roster : List Participant) (st : ResolverState)
    (h : ∀ p ∈ roster, isAgentP p = true) :
    scanRoster roster st = .ok (false, st) := by
  induction roster with
  | nil => rfl
  | cons p ps ih =>
    have hp := h p (by simp)
    simp only [scanRoster, checkParticipant_agent p st hp]
    exact ih fun q hq => h q (by simp [hq])

theorem resolverLoop_agents (steps : List Step) (st : ResolverState)
    (hev : st.metadataEventSet = false)
    (h : ∀ p ∈ steps.flatMap stepParts, isAgentP p = true) :
    resolverLoop steps st = .ok st.result := by
  induction steps with
  | nil => rfl
  | cons s rest ih =>
    cases s with
    | event p =>
      have hp := h p (by simp [stepParts])
      simp only [resolverLoop, checkParticipant_agent p st hp]
      exact ih fun q hq => h q (by simp [hq])
    | poll roster =>
      have hr : ∀ p ∈ roster, isAgentP p = true := fun q hq => h q (by simp [stepParts, hq])
      simp only [resolverLoop, scanRoster_agents roster st hr, hev, if_false]
      exact ih fun q hq => h q (by simp [hq])

/-- C1: if no eligible (non-agent) participant is ever observed — in the
initial roster, in any event callback, or in any polling pass — before the
timeout, `get_user_metadata` returns exactly the five-field default profile
`{name: "Boss", city: "India", state: "", profession: "Professional",
interests: "Success"}`, with no other keys and no other values. -/
theorem c1_timeout_returns_defaults (initial : List Participant) (steps : List Step)
    (h : ∀ p ∈ traceParts initial steps, eligibleP p = false) :
    getUserMetadata initial steps = .ok defaultProfile ∧
    defaultProfile =
      [("name".toList, .str "Boss".toList),
       ("city".toList, .str "India".toList),
       ("state".toList, .str []),
       ("profession".toList, .str "Professional".toList),
       ("interests".toList, .str "Success".toList)] := by
  refine ⟨?_, rfl⟩
  have hagent : ∀ p ∈ traceParts initial steps, isAgentP p = true := by
    intro p hp
    rw [isAgentP_eq, h p hp]
    rfl
  unfold getUserMetadata
  rw [scanRoster_agents initial initState
    (fun p hp => hagent p (by simp [traceParts, hp]))]
  exact resolverLoop_agents steps initState rfl
    (fun p hp => hagent p (by simp [traceParts, hp]))

/-- C1 witness: a roster and trace consisting only of agent-identity
participants produces exactly the defaults. -/
theorem c1_witness :
    getUserMetadata [⟨"agent-AJ".toList, "X".toList, "\x7b\"city\": \"Y\"\x7d".toList⟩]
      [.event ⟨"My-AGENT-7".toList, "X".toList, "\x7b\"city\": \"Y\"\x7d".toList⟩,
       .poll [⟨"agent-AJ".toList, "X".toList, "\x7b\"city\": \"Y\"\x7d".toList⟩]] =
      .ok defaultProfile :=
  (c1_timeout_returns_defaults _ _ (by decide)).1

/-- Remove every agent-identity participant from a trace: agent events are
dropped, polled rosters are filtered to the eligible participants. -/
def dropAgents : List Step → List Step
  | [] => []
  | .event p :: rest =>
    if eligibleP p then .event p :: dropAgents rest else dropAgents rest
  | .poll roster :: rest => .poll (roster.filter eligibleP) :: dropAgents rest

theorem scanRoster_filter (roster : List Participant) (st : ResolverState) :
    scanRoster (roster.filter eligibleP) st = scanRoster roster st := by
  induction roster generalizing st with
  | nil => rfl
  | cons p ps ih =>
    cases he : eligibleP p with
    | true => simp only [List.filter_cons, he, scanRoster]; cases checkParticipant p st with
      | mk r st' => cases r with
        | error e => rfl
        | ok b => cases b <;> simp [ih]
    | false =>
      have hag : isAgentP p = true := by rw [isAgentP_eq, he]; rfl
      simp only [List.filter_cons, he, scanRoster, checkParticipant_agent p st hag]
      exact ih st

theorem resolverLoop_dropAgents (steps : List Step) (st : ResolverState) :
    resolverLoop (dropAgents steps) st = resolverLoop steps st := by
  induction steps generalizing st with
  | nil => rfl
  | cons s rest ih =>
    cases s with
    | event p =>
      cases he : eligibleP p with
      | true => simp only [dropAgents, he, if_true, resolverLoop]; exact ih _
      | false =>
        have hag : isAgentP p = true := by rw [isAgentP_eq, he]; rfl
        simp only [dropAgents, he, if_false, resolverLoop, checkParticipant_agent p st hag]
        exact ih st
    | poll roster =>
      simp only [dropAgents, resolverLoop, scanRoster_filter roster st]
      cases scanRoster roster st with
      | error e => rfl
      | ok r =>
        obtain ⟨found, st'⟩ := r
        cases found
        · by_cases hev : st'.metadataEventSet <;> simp [hev, ih]
        · rfl

/-- C5: a participant whose identity contains `"agent"` case-insensitively
is rejected by the first line of the completion check, before its name or
metadata is read — the check returns `False` and leaves the state untouched
— and consequently a whole resolution run (initial synchronous scan, event
callbacks, and polling passes alike) computes exactly what it would compute
if every such participant had never been observed: no field of the result
is ever contributed by an agent-identity participant. -/
theorem c5_agents_rejected :
    (∀ p st, containsList "agent".toList (pyLower p.identity) = true →
      checkParticipant p st = (.ok false, st)) ∧
    (∀ initial steps,
      getUserMetadata initial steps =
        getUserMetadata (initial.filter eligibleP) (dropAgents steps)) := by
  constructor
  · intro p st h
    refine checkParticipant_agent p st ?_
    rw [isAgentP_eq]
    unfold eligibleP
    rw [h]
    rfl
  · intro initial steps
    unfold getUserMetadata
    rw [scanRoster_filter initial initState]
    cases scanRoster initial initState with
    | error e => rfl
    | ok r =>
      obtain ⟨found, st⟩ := r
      cases found
      · simp [resolverLoop_dropAgents]
      · rfl

/-- C5 witness: a concrete agent participant is rejected with the state
untouched, and a run seeing one agent equals the run seeing nobody. -/
theorem c5_witness :
    checkParticipant ⟨"My-AGENT-7".toList, "X".toList, "\x7b\"city\": \"Y\"\x7d".toList⟩ initState =
      (.ok false, initState) ∧
    getUserMetadata [⟨"agent-x".toList, "X".toList, []⟩] [] =
      getUserMetadata [] [] :=
  ⟨c5_agents_rejected.1 _ initState (by decide),
   by
    have h := c5_agents_rejected.2 [⟨"agent-x".toList, "X".toList, []⟩] []
    simpa using h⟩

/-- C6 (code bug record): the spec promises that `get_user_metadata` never
raises, but metadata that parses as *non-object* JSON — here the string
`"42"`, which `json.loads` accepts as the integer `42` — reaches
`data.items()` at line 56, which raises an `AttributeError` that no handler
catches (only `json.JSONDecodeError` is caught), and the exception
propagates out of the initial synchronous scan to the caller. -/
theorem c6_nondict_metadata_raises :
    jsonLoads "42".toList = some (.num false 42 0) ∧
    getUserMetadata [⟨"user-1".toList, [], "42".toList⟩] [] = .error .attributeError := by
  constructor
  · rfl
  · rfl

theorem nameAdopt_dget_other (p : Participant) (d : Dict) (k : Str) (hk : k ≠ nameKey) :
    dget (nameAdopt p d) k = dget d k := by
  unfold nameAdopt
  split_ifs with h
  · rw [dget_dset, if_neg (fun he => hk he.symm)]
  · rfl

theorem checkParticipant_noMeta (p : Participant) (st : ResolverState)
    (hp : isAgentP p = false) (hm : p.metadata = []) :
    checkParticipant p st = afterMetaFail p ⟨nameAdopt p st.result, st.metadataEventSet⟩ := by
  simp [checkParticipant, hp, hm]

theorem checkParticipant_metaFail (p : Participant) (st : ResolverState)
    (hp : isAgentP p = false) (hm : p.metadata ≠ []) (hj : jsonLoads p.metadata = none) :
    checkParticipant p st = afterMetaFail p ⟨nameAdopt p st.result, st.metadataEventSet⟩ := by
  have hne : p.metadata.isEmpty = false := by
    cases hmm : p.metadata with
    | nil => exact absurd hmm hm
    | cons c t => rfl
  simp [checkParticipant, hp, hne, hj]

/-- C10: the display-name placeholder filter at line 47 is an exact,
case-sensitive comparison: a name equal to `"User"`, `"null"` or
`"undefined"` (or empty, which is falsy) is not adopted, and every other
display name — case variants like `"user"` and whitespace-padded forms
included — is written to the profile's `name` field (shown on the
metadata-less path of the check, where the name step's effect is the
check's whole effect on the profile). -/
theorem c10_placeholder_filter :
    (∀ p d, (p.name = "User".toList ∨ p.name = "null".toList ∨
        p.name = "undefined".toList ∨ p.name = []) → nameAdopt p d = d) ∧
    (∀ p d, p.name ≠ [] → p.name ∉ placeholderNames →
        dget (nameAdopt p d) nameKey = some (.str p.name)) ∧
    (∀ p st, isAgentP p = false → p.metadata = [] →
        dget (checkParticipant p st).2.result nameKey =
          if p.name ≠ [] ∧ p.name ∉ placeholderNames then some (.str p.name)
          else dget st.result nameKey) := by
  refine ⟨?_, ?_, ?_⟩
  · intro p d h
    unfold nameAdopt
    rcases h with h | h | h | h <;> simp [h, placeholderNames]
  · intro p d h1 h2
    unfold nameAdopt
    rw [if_pos ⟨by simpa [List.isEmpty_iff] using h1, h2⟩, dget_dset, if_pos rfl]
  · intro p st hp hm
    rw [checkParticipant_noMeta p st hp hm, afterMetaFail_state]
    by_cases h : ¬ p.name.isEmpty ∧ p.name ∉ placeholderNames
    · have h1 : p.name ≠ [] := by
        intro he
        exact h.1 (by simp [he])
      rw [if_pos ⟨h1, h.2⟩]
      show dget (nameAdopt p st.result) nameKey = _
      unfold nameAdopt
      rw [if_pos h, dget_dset, if_pos rfl]
    · have hcond : ¬ (p.name ≠ [] ∧ p.name ∉ placeholderNames) := by
        intro hc
        exact h ⟨by simpa [List.isEmpty_iff] using hc.1, hc.2⟩
      rw [if_neg hcond]
      show dget (nameAdopt p st.result) nameKey = _
      unfold nameAdopt
      rw [if_neg h]

/-- C10 witness: `"user"` and `" User "` are adopted, `"User"` is not. -/
theorem c10_witness :
    dget (checkParticipant ⟨"user-9".toList, "user".toList, []⟩ initState).2.result nameKey =
      some (.str "user".toList) ∧
    dget (checkParticipant ⟨"user-9".toList, " User ".toList, []⟩ initState).2.result nameKey =
      some (.str " User ".toList) ∧
    dget (checkParticipant ⟨"user-9".toList, "User".toList, []⟩ initState).2.result nameKey =
      dget initState.result nameKey := by
  refine ⟨?_, ?_, ?_⟩
  · have h := c10_placeholder_filter.2.2 ⟨"user-9".toList, "user".toList, []⟩ initState
      (by decide) rfl
    rwa [if_pos (by decide)] at h
  · have h := c10_placeholder_filter.2.2 ⟨"user-9".toList, " User ".toList, []⟩ initState
      (by decide) rfl
    rwa [if_pos (by decide)] at h
  · have h := c10_placeholder_filter.2.2 ⟨"user-9".toList, "User".toList, []⟩ initState
      (by decide) rfl
    rwa [if_neg (by decide)] at h

/-- C4 counterexample: a participant with the real display name `"Alice"`
and the unparseable metadata string `"not json"` does modify the profile —
the name-adoption step (lines 46–49) runs before the parse attempt, so the
check is not a no-op as the claim states. -/
theorem c4_counterexample :
    jsonLoads "not json".toList = none ∧
    (checkParticipant ⟨"user-1".toList, "Alice".toList, "not json".toList⟩
        initState).2.result ≠ initState.result := by
  exact ⟨rfl, by decide⟩

/-- C4 (amended): for a non-agent participant whose metadata string is
present but fails to parse, the failed metadata update itself is ignored —
the profile after the check is exactly the profile after the independent
display-name adoption, so every field other than `name` is unchanged, and
the whole profile is unchanged whenever the display name is empty or a
placeholder. -/
theorem c4_unparseable_merge_ignored (p : Participant) (st : ResolverState)
    (hp : isAgentP p = false) (hm : p.metadata ≠ [])
    (hj : jsonLoads p.metadata = none) :
    (checkParticipant p st).2.result = nameAdopt p st.result ∧
    (checkParticipant p st).2.metadataEventSet = st.metadataEventSet ∧
    (∀ k, k ≠ nameKey → dget (checkParticipant p st).2.result k = dget st.result k) ∧
    ((p.name = [] ∨ p.name ∈ placeholderNames) →
      (checkParticipant p st).2.result = st.result) := by
  rw [checkParticipant_metaFail p st hp hm hj, afterMetaFail_state]
  refine ⟨rfl, rfl, ?_, ?_⟩
  · intro k hk
    exact nameAdopt_dget_other p st.result k hk
  · intro h
    show nameAdopt p st.result = st.result
    unfold nameAdopt
    rcases h with h | h
    · simp [h]
    · rw [if_neg (fun hc => hc.2 h)]

/-- C4 witness: at the counterexample input, only the name changed — the
profile equals the name-adoption of the old one, the other four fields are
untouched. -/
theorem c4_witness :
    (checkParticipant ⟨"user-1".toList, "Alice".toList, "not json".toList⟩
        initState).2.result =
      nameAdopt ⟨"user-1".toList, "Alice".toList, "not json".toList⟩ initState.result ∧
    dget (checkParticipant ⟨"user-1".toList, "Alice".toList, "not json".toList⟩
        initState).2.result "city".toList = dget initState.result "city".toList :=
  ⟨(c4_unparseable_merge_ignored _ initState (by decide) (by decide) (by rfl)).1,
   (c4_unparseable_merge_ignored _ initState (by decide) (by decide) (by rfl)).2.2.1
     "city".toList (by decide)⟩

theorem isEmpty_false_of_ne {l : Str} (h : l ≠ []) : l.isEmpty = false := by
  cases hl : l with
  | nil => exact absurd hl h
  | cons c t => rfl

theorem afterMetaFail_fst (p : Participant) (st' : ResolverState) :
    (afterMetaFail p st').1 =
      if dget st'.result nameKey ≠ some (.str bossName) ∧ p.metadata.isEmpty = false
      then .ok true else .ok false := by
  unfold afterMetaFail
  by_cases h1 : dget st'.result nameKey ≠ some (.str bossName) <;>
    cases h2 : p.metadata.isEmpty <;> simp [h1, h2]

theorem checkParticipant_objMeta (p : Participant) (st : ResolverState) (kvs : Dict)
    (hp : isAgentP p = false) (hj : jsonLoads p.metadata = some (.obj kvs)) :
    checkParticipant p st =
      (.ok true, ⟨pyUpdate (nameAdopt p st.result) (kvs.filter fun kv => kv.2.truthy),
        true⟩) := by
  have hm : p.metadata ≠ [] := by
    intro he
    rw [he] at hj
    cases hj
  simp [checkParticipant, hp, isEmpty_false_of_ne hm, hj]

theorem checkParticipant_nonObjMeta (p : Participant) (st : ResolverState) (v : Json)
    (hp : isAgentP p = false) (hj : jsonLoads p.metadata = some v)
    (hv : ∀ kvs, v ≠ .obj kvs) :
    checkParticipant p st =
      (.error .attributeError, ⟨nameAdopt p st.result, st.metadataEventSet⟩) := by
  have hm : p.metadata ≠ [] := by
    intro he
    rw [he] at hj
    cases hj
  cases v with
  | obj kvs => exact absurd rfl (hv kvs)
  | null => simp [checkParticipant, hp, isEmpty_false_of_ne hm, hj]
  | bool b => simp [checkParticipant, hp, isEmpty_false_of_ne hm, hj]
  | num f m s => simp [checkParticipant, hp, isEmpty_false_of_ne hm, hj]
  | nan => simp [checkParticipant, hp, isEmpty_false_of_ne hm, hj]
  | inf b => simp [checkParticipant, hp, isEmpty_false_of_ne hm, hj]
  | str s => simp [checkParticipant, hp, isEmpty_false_of_ne hm, hj]
  | arr xs => simp [checkParticipant, hp, isEmpty_false_of_ne hm, hj]

/-- C3 counterexample: the metadata string `"42"` parses successfully as
JSON, yet the completion check does not report the participant complete —
it raises an uncaught `AttributeError` (`int` has no `.items`), so "parses
successfully as JSON" does not suffice; only a JSON *object* completes. -/
theorem c3_counterexample :
    jsonLoads "42".toList = some (.num false 42 0) ∧
    (checkParticipant ⟨"user-1".toList, [], "42".toList⟩ initState).1 ≠ .ok true ∧
    (checkParticipant ⟨"user-1".toList, [], "42".toList⟩ initState).1 =
      .error .attributeError := by
  refine ⟨rfl, ?_, rfl⟩
  intro h
  cases h

/-- C3 (amended): for a non-agent participant, the completion check returns
`True` exactly when the metadata parses as a JSON *object* (whatever fields
it contains), or when the metadata is a non-empty string that fails to
parse and the profile's name — after this check's display-name adoption —
is non-default; a participant with no metadata string is never complete
(the routine keeps waiting), whatever its name.  (Metadata parsing to
non-object JSON raises instead of returning.) -/
theorem c3_completion_predicate (p : Participant) (st : ResolverState)
    (hp : isAgentP p = false) :
    ((checkParticipant p st).1 = .ok true ↔
      ((∃ kvs, jsonLoads p.metadata = some (.obj kvs)) ∨
       (jsonLoads p.metadata = none ∧ p.metadata ≠ [] ∧
        dget (nameAdopt p st.result) nameKey ≠ some (.str bossName)))) ∧
    (p.metadata = [] → (checkParticipant p st).1 = .ok false) := by
  have hloadsNil : jsonLoads ([] : Str) = none := rfl
  constructor
  · by_cases hm : p.metadata = []
    · rw [checkParticipant_noMeta p st hp hm, afterMetaFail_fst,
        if_neg (by simp [hm])]
      constructor
      · intro h
        cases h
      · rintro (⟨kvs, hkvs⟩ | ⟨hn, hne, hnb⟩)
        · rw [hm, hloadsNil] at hkvs
          cases hkvs
        · exact absurd hm hne
    · cases hj : jsonLoads p.metadata with
      | none =>
        rw [checkParticipant_metaFail p st hp hm hj, afterMetaFail_fst]
        by_cases hn : dget (nameAdopt p st.result) nameKey ≠ some (.str bossName)
        · rw [if_pos ⟨hn, isEmpty_false_of_ne hm⟩]
          exact ⟨fun _ => Or.inr ⟨rfl, hm, hn⟩, fun _ => rfl⟩
        · rw [if_neg (fun hc => hn hc.1)]
          constructor
          · intro h
            cases h
          · rintro (⟨kvs, hkvs⟩ | ⟨_, _, hn2⟩)
            · cases hkvs
            · exact absurd hn2 hn
      | some v =>
        by_cases hobj : ∃ kvs, v = .obj kvs
        · obtain ⟨kvs, rfl⟩ := hobj
          rw [checkParticipant_objMeta p st kvs hp hj]
          exact ⟨fun _ => Or.inl ⟨kvs, rfl⟩, fun _ => rfl⟩
        · rw [checkParticipant_nonObjMeta p st v hp hj (fun kvs hk => hobj ⟨kvs, hk⟩)]
          constructor
          · intro h
            cases h
          · rintro (⟨kvs, hkvs⟩ | ⟨hn, _, _⟩)
            · exact absurd ⟨kvs, Option.some.inj hkvs⟩ hobj
            · cases hn
  · intro hm
    rw [checkParticipant_noMeta p st hp hm, afterMetaFail_fst, if_neg (by simp [hm])]

/-- C3 witness: an empty object completes; a real name with unparseable
metadata completes; a real name with no metadata does not. -/
theorem c3_witness :
    ((checkParticipant ⟨"user-1".toList, [], "\x7b\x7d".toList⟩ initState).1 = .ok true) ∧
    ((checkParticipant ⟨"user-1".toList, "Alice".toList, "not json".toList⟩
        initState).1 = .ok true) ∧
    ((checkParticipant ⟨"user-1".toList, "Alice".toList, []⟩ initState).1 = .ok false) := by
  refine ⟨?_, ?_, ?_⟩
  · exact (c3_completion_predicate ⟨"user-1".toList, [], "\x7b\x7d".toList⟩ initState
      (by decide)).1.mpr (Or.inl ⟨[], by rfl⟩)
  · exact (c3_completion_predicate ⟨"user-1".toList, "Alice".toList, "not json".toList⟩
      initState (by decide)).1.mpr (Or.inr ⟨by rfl, by decide, by decide⟩)
  · exact (c3_completion_predicate ⟨"user-1".toList, "Alice".toList, []⟩ initState
      (by decide)).2 rfl

/-! ## Parsed objects are Python dicts: their keys are distinct -/

theorem mkNum_num (neg : Bool) (ids fds : Str) (ex : Option (Bool × Nat)) :
    ∃ f m s, mkNum neg ids fds ex = .num f m s := by
  unfold mkNum
  cases ex with
  | none => exact ⟨_, _, _, rfl⟩
  | some p =>
    obtain ⟨en, e⟩ := p
    dsimp only
    split_ifs <;> exact ⟨_, _, _, rfl⟩

theorem finishNum_num (neg : Bool) (ids fds : Str) (cs : Str) (v : Json) (r : Str)
    (h : finishNum neg ids fds cs = some (v, r)) : ∃ f m s, v = .num f m s := by
  unfold finishNum at h
  split at h
  · split_ifs at h with he hemp
    all_goals cases h
    all_goals exact mkNum_num _ _ _ _
  · cases h
    exact mkNum_num _ _ _ _

theorem parseNumber_num (cs : Str) (v : Json) (r : Str)
    (h : parseNumber cs = some (v, r)) : ∃ f m s, v = .num f m s := by
  unfold parseNumber at h
  split at h
  · cases h
  · split at h
    · cases h
    · split at h
      · exact finishNum_num _ _ _ _ _ _ h
      · split at h
        · split at h
          · cases h
          · exact finishNum_num _ _ _ _ _ _ h
        · exact finishNum_num _ _ _ _ _ _ h

theorem parseVal_obj_nodup (fuel : Nat) (cs : Str) (kvs : Dict) (r : Str)
    (h : parseVal fuel cs = some (.obj kvs, r)) : NodupKeys kvs := by
  match fuel, cs with
  | 0, _ => simp [parseVal] at h
  | fuel + 1, [] => simp [parseVal] at h
  | fuel + 1, c :: rest =>
    simp only [parseVal] at h
    split_ifs at h with h1 h2 h3 h4 h5 h6 h7 h8 h9
    · -- string branch
      split at h
      · cases h
      · cases h
    · -- array branch
      split at h
      · cases h
      · rename_i c1 r1
        split_ifs at h with hc
        · cases h
        · split at h
          · cases h
          · cases h
    · -- object branch
      split at h
      · cases h
      · rename_i c1 r1
        split_ifs at h with hc
        · cases h
          simp [NodupKeys]
        · split at h
          · cases h
            exact nodupKeys_pyDict _
          · cases h
    · cases h
    · cases h
    · cases h
    · cases h
    · cases h
    · cases h
    · obtain ⟨f, m, s, hv⟩ := parseNumber_num _ _ _ h
      cases hv

theorem jsonLoads_obj_nodup (s : Str) (kvs : Dict)
    (h : jsonLoads s = some (.obj kvs)) : NodupKeys kvs := by
  unfold jsonLoads at h
  split at h
  · rename_i p heq
    split_ifs at h with hws
    cases h
    exact parseVal_obj_nodup _ _ _ _ heq
  · cases h

theorem nodupKeys_filter (kvs : Dict) (p : Str × Json → Bool) (h : NodupKeys kvs) :
    NodupKeys (kvs.filter p) := by
  unfold NodupKeys at *
  exact List.Nodup.sublist (List.Sublist.map _ (List.filter_sublist _)) h

/-- C2 counterexample: a field not mentioned in the parsed payload does not
always keep its value.  Bob's name has been learned; then a second
participant with display name `"Alice"` and metadata `{"city": "Kochi"}` is
checked: the payload mentions only `city`, with no `name` key, yet the
profile's `name` changes from `"Bob"` to `"Alice"`, because the
display-name adoption step (lines 46–49) runs inside the same check before
the merge. -/
theorem c2_counterexample :
    jsonLoads "\x7b\"city\": \"Kochi\"\x7d".toList =
      some (.obj [("city".toList, .str "Kochi".toList)]) ∧
    dget (checkParticipant ⟨"user-1".toList, "Bob".toList, []⟩ initState).2.result
      nameKey = some (.str "Bob".toList) ∧
    dget (checkParticipant ⟨"user-2".toList, "Alice".toList, "\x7b\"city\": \"Kochi\"\x7d".toList⟩
        (checkParticipant ⟨"user-1".toList, "Bob".toList, []⟩ initState).2).2.result
      nameKey = some (.str "Alice".toList) := by
  refine ⟨rfl, rfl, rfl⟩

/-- C2 (amended): for a non-agent participant whose metadata parses as a
JSON object `P`, the check completes (returns `True`, sets the wait event)
and merges into the profile exactly the keys of `P` with truthy values,
each overwriting any prior value for that key; keys of `P` with falsy
values are ignored; every other field keeps the value it had *after* the
check's own display-name adoption — so fields other than `name` not
mentioned (truthily) in `P` are unchanged, while `name` may additionally
have been overwritten by the participant's display name just before the
merge. -/
theorem c2_truthy_merge (p : Participant) (st : ResolverState) (kvs : Dict)
    (hp : isAgentP p = false) (hj : jsonLoads p.metadata = some (.obj kvs)) :
    (checkParticipant p st).1 = .ok true ∧
    (checkParticipant p st).2.metadataEventSet = true ∧
    (∀ k v, dget (kvs.filter fun kv => kv.2.truthy) k = some v →
      dget (checkParticipant p st).2.result k = some v) ∧
    (∀ k, dget (kvs.filter fun kv => kv.2.truthy) k = none →
      dget (checkParticipant p st).2.result k = dget (nameAdopt p st.result) k) ∧
    (∀ k, dget (kvs.filter fun kv => kv.2.truthy) k = none → k ≠ nameKey →
      dget (checkParticipant p st).2.result k = dget st.result k) := by
  have hnodup : NodupKeys (kvs.filter fun kv => kv.2.truthy) :=
    nodupKeys_filter kvs _ (jsonLoads_obj_nodup p.metadata kvs hj)
  rw [checkParticipant_objMeta p st kvs hp hj]
  refine ⟨rfl, rfl, ?_, ?_, ?_⟩
  · intro k v hk
    show dget (pyUpdate (nameAdopt p st.result) _) k = some v
    rw [dget_pyUpdate _ _ hnodup, hk]
  · intro k hk
    show dget (pyUpdate (nameAdopt p st.result) _) k = _
    rw [dget_pyUpdate _ _ hnodup, hk]
  · intro k hk hkn
    show dget (pyUpdate (nameAdopt p st.result) _) k = _
    rw [dget_pyUpdate _ _ hnodup, hk]
    exact nameAdopt_dget_other p st.result k hkn

/-- C2 witness: `{"city": "Kochi", "state": ""}` merges the truthy `city`,
ignores the falsy `state`, completes, and leaves `profession` untouched. -/
theorem c2_witness :
    dget (checkParticipant ⟨"user-1".toList, [],
        "\x7b\"city\": \"Kochi\", \"state\": \"\"\x7d".toList⟩ initState).2.result
      "city".toList = some (.str "Kochi".toList) ∧
    dget (checkParticipant ⟨"user-1".toList, [],
        "\x7b\"city\": \"Kochi\", \"state\": \"\"\x7d".toList⟩ initState).2.result
      "state".toList = dget initState.result "state".toList ∧
    (checkParticipant ⟨"user-1".toList, [],
        "\x7b\"city\": \"Kochi\", \"state\": \"\"\x7d".toList⟩ initState).1 = .ok true := by
  have h := c2_truthy_merge ⟨"user-1".toList, [],
      "\x7b\"city\": \"Kochi\", \"state\": \"\"\x7d".toList⟩ initState
    [("city".toList, .str "Kochi".toList), ("state".toList, .str [])]
    (by decide) (by rfl)
  exact ⟨h.2.2.1 "city".toList (.str "Kochi".toList) (by rfl),
    h.2.2.2.2 "state".toList (by rfl) (by decide), h.1⟩

/-! ## Provenance and key-preservation of the resolver -/

theorem dget_mem (d : Dict) (k : Str) (v : Json) (h : dget d k = some v) : (k, v) ∈ d := by
  induction d with
  | nil => cases h
  | cons kv rest ih =>
    obtain ⟨k₀, v₀⟩ := kv
    unfold dget at h
    split_ifs at h with h0
    · cases h
      subst h0
      exact List.mem_cons_self _ _
    · exact List.mem_cons_of_mem _ (ih h)

theorem dget_pyUpdate_cases (d m : Dict) (k : Str) (v : Json)
    (h : dget (pyUpdate d m) k = some v) : (k, v) ∈ m ∨ dget d k = some v := by
  induction m using List.reverseRecOn generalizing d with
  | nil => exact Or.inr h
  | append_singleton m a ih =>
    unfold pyUpdate at h
    rw [List.foldl_append] at h
    simp only [List.foldl_cons, List.foldl_nil] at h
    rw [dget_dset] at h
    split_ifs at h with h0
    · cases h
      exact Or.inl (by simp [← h0])
    · rcases ih d h with hm | hd
      · exact Or.inl (by simp [hm])
      · exact Or.inr hd

/-- A value in the profile was contributed by participant `p` when it is
`p`'s adoptable display name (for the `name` field) or a truthy member of
`p`'s parsed metadata object. -/
def contrib (p : Participant) (k : Str) (v : Json) : Prop :=
  (k = nameKey ∧ v = .str p.name ∧ p.name ≠ [] ∧ p.name ∉ placeholderNames) ∨
  (∃ kvs, jsonLoads p.metadata = some (.obj kvs) ∧ (k, v) ∈ kvs ∧ v.truthy = true)

/-- Every binding of `d` is a default or was contributed by some
participant in `S`. -/
def ProfileFrom (S : List Participant) (d : Dict) : Prop :=
  ∀ k v, dget d k = some v → dget defaultProfile k = some v ∨ ∃ p ∈ S, contrib p k v

theorem nameAdopt_from {S : List Participant} {d : Dict} (p : Participant)
    (hp : p ∈ S) (h : ProfileFrom S d) : ProfileFrom S (nameAdopt p d) := by
  unfold nameAdopt
  split_ifs with hc
  · intro k v hk
    rw [dget_dset] at hk
    split_ifs at hk with h0
    · cases hk
      refine Or.inr ⟨p, hp, Or.inl ⟨h0.symm, rfl, ?_, hc.2⟩⟩
      intro he
      exact hc.1 (by simp [he])
    · exact h k v hk
  · exact h

theorem checkParticipant_from {S : List Participant} {st : ResolverState}
    (p : Participant) (hp : p ∈ S) (h : ProfileFrom S st.result) :
    ProfileFrom S (checkParticipant p st).2.result := by
  cases hag : isAgentP p with
  | true => rw [checkParticipant_agent p st hag]; exact h
  | false =>
    by_cases hm : p.metadata = []
    · rw [checkParticipant_noMeta p st hag hm, afterMetaFail_state]
      exact nameAdopt_from p hp h
    · cases hj : jsonLoads p.metadata with
      | none =>
        rw [checkParticipant_metaFail p st hag hm hj, afterMetaFail_state]
        exact nameAdopt_from p hp h
      | some v =>
        by_cases hobj : ∃ kvs, v = .obj kvs
        · obtain ⟨kvs, rfl⟩ := hobj
          rw [checkParticipant_objMeta p st kvs hag hj]
          intro k w hk
          rcases dget_pyUpdate_cases _ _ _ _ hk with hmem | hbase
          · rw [List.mem_filter] at hmem
            exact Or.inr ⟨p, hp, Or.inr ⟨kvs, hj, hmem.1, hmem.2⟩⟩
          · exact nameAdopt_from p hp h k w hbase
        · rw [checkParticipant_nonObjMeta p st v hag hj (fun kvs hk => hobj ⟨kvs, hk⟩)]
          exact nameAdopt_from p hp h

theorem scanRoster_from {S : List Participant} (roster : List Participant)
    (st : ResolverState) (b : Bool) (st' : ResolverState)
    (hsub : ∀ q ∈ roster, q ∈ S) (h : ProfileFrom S st.result)
    (hrun : scanRoster roster st = .ok (b, st')) : ProfileFrom S st'.result := by
  induction roster generalizing st with
  | nil =>
    cases hrun
    exact h
  | cons p ps ih =>
    unfold scanRoster at hrun
    have hfrom := checkParticipant_from p (hsub p (by simp)) h
    split at hrun
    · cases hrun
    · rename_i heq
      cases hrun
      rw [heq] at hfrom
      exact hfrom
    · rename_i st'' heq
      rw [heq] at hfrom
      exact ih st'' (fun q hq => hsub q (by simp [hq])) hfrom hrun

theorem resolverLoop_from {S : List Participant} (steps : List Step)
    (st : ResolverState) (res : Dict)
    (hsub : ∀ q ∈ steps.flatMap stepParts, q ∈ S) (h : ProfileFrom S st.result)
    (hrun : resolverLoop steps st = .ok res) : ProfileFrom S res := by
  induction steps generalizing st with
  | nil =>
    cases hrun
    exact h
  | cons s rest ih =>
    cases s with
    | event p =>
      unfold resolverLoop at hrun
      exact ih _ (fun q hq => hsub q (by simp [stepParts, hq]))
        (checkParticipant_from p (hsub p (by simp [stepParts])) h) hrun
    | poll roster =>
      unfold resolverLoop at hrun
      split at hrun
      · cases hrun
      · rename_i st' heq
        cases hrun
        exact scanRoster_from roster st _ _
          (fun q hq => hsub q (by simp [stepParts, hq])) h heq
      · rename_i st' heq
        have hst' := scanRoster_from roster st _ _
          (fun q hq => hsub q (by simp [stepParts, hq])) h heq
        split_ifs at hrun with hev
        · cases hrun
          exact hst'
        · exact ih _ (fun q hq => hsub q (by simp [hq])) hst' hrun

theorem nameAdopt_keeps (p : Participant) (d : Dict) (k : Str)
    (h : (dget d k).isSome) : (dget (nameAdopt p d) k).isSome := by
  unfold nameAdopt
  split_ifs with hc
  · exact dget_isSome_dset _ _ _ _ h
  · exact h

theorem checkParticipant_keeps (p : Participant) (st : ResolverState) (k : Str)
    (h : (dget st.result k).isSome) : (dget (checkParticipant p st).2.result k).isSome := by
  cases hag : isAgentP p with
  | true => rw [checkParticipant_agent p st hag]; exact h
  | false =>
    by_cases hm : p.metadata = []
    · rw [checkParticipant_noMeta p st hag hm, afterMetaFail_state]
      exact nameAdopt_keeps p _ k h
    · cases hj : jsonLoads p.metadata with
      | none =>
        rw [checkParticipant_metaFail p st hag hm hj, afterMetaFail_state]
        exact nameAdopt_keeps p _ k h
      | some v =>
        by_cases hobj : ∃ kvs, v = .obj kvs
        · obtain ⟨kvs, rfl⟩ := hobj
          rw [checkParticipant_objMeta p st kvs hag hj]
          exact dget_isSome_pyUpdate _ _ k (nameAdopt_keeps p _ k h)
        · rw [checkParticipant_nonObjMeta p st v hag hj (fun kvs hk => hobj ⟨kvs, hk⟩)]
          exact nameAdopt_keeps p _ k h

theorem scanRoster_keeps (roster : List Participant) (st : ResolverState)
    (b : Bool) (st' : ResolverState) (k : Str)
    (hrun : scanRoster roster st = .ok (b, st'))
    (h : (dget st.result k).isSome) : (dget st'.result k).isSome := by
  induction roster generalizing st with
  | nil =>
    cases hrun
    exact h
  | cons p ps ih =>
    unfold scanRoster at hrun
    have hk := checkParticipant_keeps p st k h
    split at hrun
    · cases hrun
    · rename_i heq
      cases hrun
      rw [heq] at hk
      exact hk
    · rename_i st'' heq
      rw [heq] at hk
      exact ih st'' hrun hk

theorem resolverLoop_keeps (steps : List Step) (st : ResolverState) (res : Dict) (k : Str)
    (hrun : resolverLoop steps st = .ok res)
    (h : (dget st.result k).isSome) : (dget res k).isSome := by
  induction steps generalizing st with
  | nil =>
    cases hrun
    exact h
  | cons s rest ih =>
    cases s with
    | event p =>
      unfold resolverLoop at hrun
      exact ih _ hrun (checkParticipant_keeps p st k h)
    | poll roster =>
      unfold resolverLoop at hrun
      split at hrun
      · cases hrun
      · rename_i st' heq
        cases hrun
        exact scanRoster_keeps roster st _ _ k heq h
      · rename_i st' heq
        have hst' := scanRoster_keeps roster st _ _ k heq h
        split_ifs at hrun with hev
        · cases hrun
          exact hst'
        · exact ih _ hrun hst'

/-- C7: the accumulated profile always contains the five keys `name`,
`city`, `state`, `profession`, `interests` — no operation of the resolver
(the completion check in particular) ever removes a key — and in any
returned profile every binding is either the stated default or a value
contributed by an observed remote participant (its adoptable display name
for `name`, or a truthy member of its parsed metadata object). -/
theorem c7_profile_invariant :
    (∀ p st k, (dget st.result k).isSome →
      (dget (checkParticipant p st).2.result k).isSome) ∧
    (∀ initial steps res, getUserMetadata initial steps = .ok res →
      (∀ k, k ∈ defaultProfile.map Prod.fst → (dget res k).isSome) ∧
      (∀ k v, dget res k = some v →
        dget defaultProfile k = some v ∨
          ∃ p ∈ traceParts initial steps, contrib p k v)) := by
  refine ⟨checkParticipant_keeps, ?_⟩
  intro initial steps res hrun
  have hinit : ∀ k, k ∈ defaultProfile.map Prod.fst → (dget initState.result k).isSome := by
    decide
  have hfrom0 : ProfileFrom (traceParts initial steps) initState.result :=
    fun k v hk => Or.inl hk
  have hsubInit : ∀ q ∈ initial, q ∈ traceParts initial steps := by
    intro q hq
    simp [traceParts, hq]
  have hsubSteps : ∀ q ∈ steps.flatMap stepParts, q ∈ traceParts initial steps := by
    intro q hq
    simp [traceParts, hq]
  unfold getUserMetadata at hrun
  split at hrun
  · cases hrun
  · rename_i st heq
    cases hrun
    exact ⟨fun k hk => scanRoster_keeps initial initState _ _ k heq (hinit k hk),
      scanRoster_from initial initState _ _ hsubInit hfrom0 heq⟩
  · rename_i st heq
    constructor
    · intro k hk
      exact resolverLoop_keeps steps st res k hrun
        (scanRoster_keeps initial initState _ _ k heq (hinit k hk))
    · exact resolverLoop_from steps st res hsubSteps
        (scanRoster_from initial initState _ _ hsubInit hfrom0 heq) hrun

/-- C7 witness: a run that learns `name` and `city` from a participant
still carries all five keys in its result. -/
theorem c7_witness :
    (∀ k, k ∈ defaultProfile.map Prod.fst →
      (dget ((dset (dset defaultProfile "name".toList (.str "Abe".toList))
        "city".toList (.str "Kochi".toList))) k).isSome) ∧
    (dget (checkParticipant ⟨"user-1".toList, "Abe".toList, []⟩ initState).2.result
      "city".toList).isSome := by
  constructor
  · have h := (c7_profile_invariant.2
      [⟨"user-1".toList, "Abe".toList, "\x7b\"city\": \"Kochi\"\x7d".toList⟩] []
      (dset (dset defaultProfile "name".toList (.str "Abe".toList))
        "city".toList (.str "Kochi".toList)) (by rfl)).1
    exact h
  · exact c7_profile_invariant.1 ⟨"user-1".toList, "Abe".toList, []⟩ initState
      "city".toList (by decide)

/-! ## Spy-tool degradation theorems -/

/-- C9 counterexample: on a `GithubException` with HTTP status 500,
`get_github_activity` returns a themed string that embeds the *status
code*, not the exception's category: the type name `GithubException` does
not occur in the output, contradicting "embeds only the exception's
category (type name)". -/
theorem c9_counterexample :
    get_github_activity true "dev".toList 0 (.error (.github 500 "rate limited".toList)) =
      "GitHub API error. Even APIs are tired of your requests. Error: 500".toList ∧
    containsList "GithubException".toList
      (get_github_activity true "dev".toList 0
        (.error (.github 500 "rate limited".toList))) = false := by
  exact ⟨by decide, by decide⟩

/-- C9 (amended): each spy tool returns its fixed canned no-access string
when its credential is absent; on a runtime exception the Gmail and
Calendar tools (and the GitHub tool for non-`GithubException` errors)
return a themed string embedding exactly the exception's type name and
nothing of its message; `get_github_activity` maps `GithubException` to a
fixed not-found string for status 404 and otherwise to a themed string
embedding the HTTP status code instead of the type name.  Every path
returns a string — in this model the tools are total functions, so no
exception propagates. -/
theorem c9_spy_tool_degradation :
    (∀ lim fetch, get_unread_email_summary false lim fetch = emailNoAccessStr) ∧
    (∀ fetch, check_calendar_today false fetch = calNoAccessStr) ∧
    (∀ u now fetch, get_github_activity false u now fetch = ghNoAccessStr) ∧
    (∀ lim e, get_unread_email_summary true lim (.error e) = emailErrPre ++ e.typeName) ∧
    (∀ e, check_calendar_today true (.error e) = calErrPre ++ e.typeName) ∧
    (∀ u now t msg, get_github_activity true u now (.error (.other t msg)) =
      ghFailPre ++ t) ∧
    (∀ u now msg, get_github_activity true u now (.error (.github 404 msg)) =
      ghNotFoundStr) ∧
    (∀ u now s msg, s ≠ 404 → get_github_activity true u now (.error (.github s msg)) =
      ghApiErrPre ++ intChars s) := by
  refine ⟨fun lim fetch => rfl, fun fetch => rfl, fun u now fetch => rfl,
    fun lim e => rfl, fun e => rfl, fun u now t msg => rfl, fun u now msg => rfl,
    fun u now s msg hs => ?_⟩
  simp [get_github_activity, hs]

/-- C9 witness: the canned and themed strings at concrete inputs; the
message `"boom"` does not appear in a themed output. -/
theorem c9_witness :
    get_unread_email_summary false 5 (.ok []) = emailNoAccessStr ∧
    get_unread_email_summary true 5 (.error (.other "HttpError".toList "boom".toList)) =
      emailErrPre ++ "HttpError".toList ∧
    get_github_activity true "dev".toList 0 (.error (.github 403 "x".toList)) =
      ghApiErrPre ++ intChars 403 :=
  ⟨c9_spy_tool_degradation.1 5 (.ok []),
   c9_spy_tool_degradation.2.2.2.1 5 (.other "HttpError".toList "boom".toList),
   c9_spy_tool_degradation.2.2.2.2.2.2.2 "dev".toList 0 403 "x".toList (by decide)⟩

/-! ## The dumps/loads round trip (for C8) -/
theorem charToNat_ofNat_small (n : Nat) (h : n < 55296) : (Char.ofNat n).toNat = n := by
  unfold Char.ofNat
  simp [Char.ofNatAux, Nat.isValidChar, Char.toNat, h]
  rfl

theorem char_ne_of_toNat_ne {c d : Char} (h : c.toNat ≠ d.toNat) : c ≠ d :=
  fun he => h (he ▸ rfl)

theorem isDigitCh_iff (c : Char) : isDigitCh c = true ↔ 48 ≤ c.toNat ∧ c.toNat ≤ 57 := by
  simp [isDigitCh]

theorem digitsVal_snoc (a : Str) (c : Char) :
    digitsVal (a ++ [c]) = 10 * digitsVal a + (c.toNat - 48) := by
  unfold digitsVal
  rw [List.foldl_append]
  simp [Nat.mul_comm]

theorem natCharsAux_spec (fuel : Nat) : ∀ n, n < 10 ^ fuel → 0 < fuel →
    (natCharsAux fuel n ≠ [] ∧
     (∀ c ∈ natCharsAux fuel n, isDigitCh c = true) ∧
     digitsVal (natCharsAux fuel n) = n ∧
     (10 ≤ n → ∀ hd tl, natCharsAux fuel n = hd :: tl → hd ≠ '0')) := by
  induction fuel with
  | zero => intro n hn hpos; omega
  | succ fuel ih =>
    intro n hn hpos
    by_cases h10 : n < 10
    · refine ⟨by simp [natCharsAux, h10], ?_, ?_, fun hge hd tl hcons => absurd h10 (by omega)⟩
      · intro c hc
        simp only [natCharsAux, if_pos h10, List.mem_singleton] at hc
        subst hc
        rw [isDigitCh_iff, charToNat_ofNat_small (48 + n) (by omega)]
        omega
      · simp only [natCharsAux, if_pos h10]
        unfold digitsVal
        simp [charToNat_ofNat_small (48 + n) (by omega)]
    · have hdiv : n / 10 < 10 ^ fuel := by
        have hpow : (10 : Nat) ^ (fuel + 1) = 10 ^ fuel * 10 := by ring
        rw [hpow] at hn
        omega
      have hfpos : 0 < fuel := by
        by_contra hf
        have hf0 : fuel = 0 := by omega
        subst hf0
        rw [pow_zero] at hdiv
        omega
      obtain ⟨hne, hdig, hval, hhead⟩ := ih (n / 10) hdiv hfpos
      have hrw : natCharsAux (fuel + 1) n =
          natCharsAux fuel (n / 10) ++ [Char.ofNat (48 + n % 10)] := by
        simp [natCharsAux, h10]
      refine ⟨by simp [hrw], ?_, ?_, ?_⟩
      · intro c hc
        rw [hrw, List.mem_append] at hc
        rcases hc with hc | hc
        · exact hdig c hc
        · rw [List.mem_singleton] at hc
          subst hc
          rw [isDigitCh_iff, charToNat_ofNat_small (48 + n % 10) (by omega)]
          omega
      · rw [hrw, digitsVal_snoc, hval, charToNat_ofNat_small (48 + n % 10) (by omega)]
        omega
      · intro hge hd tl hcons
        rw [hrw] at hcons
        cases hcc : natCharsAux fuel (n / 10) with
        | nil => exact absurd hcc hne
        | cons d ds =>
          rw [hcc] at hcons
          have hhd : hd = d := by
            simpa using congrArg List.head? hcons.symm
          subst hhd
          by_cases hd10 : n / 10 < 10
          · have hsingle : natCharsAux fuel (n / 10) = [Char.ofNat (48 + n / 10)] := by
              cases fuel with
              | zero => omega
              | succ f => simp [natCharsAux, hd10]
            rw [hsingle] at hcc
            cases hcc
            apply char_ne_of_toNat_ne
            rw [charToNat_ofNat_small (48 + n / 10) (by omega)]
            have h0 : ('0').toNat = 48 := rfl
            omega
          · exact hhead (by omega) _ _ hcc

theorem natChars_spec (n : Nat) :
    natChars n ≠ [] ∧ (∀ c ∈ natChars n, isDigitCh c = true) ∧
    digitsVal (natChars n) = n ∧
    (10 ≤ n → ∀ hd tl, natChars n = hd :: tl → hd ≠ '0') := by
  have hpow : n < 10 ^ (n + 1) := by
    calc n < n + 1 := by omega
    _ ≤ 10 ^ (n + 1) := Nat.le_of_lt (Nat.lt_pow_self (by omega) _)
  exact natCharsAux_spec (n + 1) n hpow (by omega)

theorem takeWhile_append_all (p : Char → Bool) (a b : Str) (ha : ∀ c ∈ a, p c = true) :
    (a ++ b).takeWhile p = a ++ b.takeWhile p := by
  induction a with
  | nil => rfl
  | cons c cs ih =>
    rw [List.cons_append, List.takeWhile_cons, if_pos (ha c (by simp)), List.cons_append,
      ih (fun d hd => ha d (by simp [hd]))]

theorem dropWhile_append_all (p : Char → Bool) (a b : Str) (ha : ∀ c ∈ a, p c = true) :
    (a ++ b).dropWhile p = b.dropWhile p := by
  induction a with
  | nil => rfl
  | cons c cs ih =>
    rw [List.cons_append, List.dropWhile_cons, if_pos (ha c (by simp))]
    exact ih (fun d hd => ha d (by simp [hd]))

theorem takeWhile_head_false (p : Char → Bool) (b : Str)
    (hb : ∀ c, b.head? = some c → p c = false) : b.takeWhile p = [] := by
  cases b with
  | nil => rfl
  | cons c cs => rw [List.takeWhile_cons, if_neg (by rw [hb c rfl]; simp)]

theorem dropWhile_head_false (p : Char → Bool) (b : Str)
    (hb : ∀ c, b.head? = some c → p c = false) : b.dropWhile p = b := by
  cases b with
  | nil => rfl
  | cons c cs => rw [List.dropWhile_cons, if_neg (by rw [hb c rfl]; simp)]

theorem span_exact (p : Char → Bool) (a b : Str) (ha : ∀ c ∈ a, p c = true)
    (hb : ∀ c, b.head? = some c → p c = false) : (a ++ b).span p = (a, b) := by
  rw [List.span_eq_take_drop, takeWhile_append_all p a b ha, dropWhile_append_all p a b ha,
    takeWhile_head_false p b hb, dropWhile_head_false p b hb, List.append_nil]

theorem digitCh_ne (c : Char) (hd : isDigitCh c = true) (d : Char) (hdn : d.toNat < 48 ∨ 57 < d.toNat) :
    c ≠ d := by
  rw [isDigitCh_iff] at hd
  exact char_ne_of_toNat_ne (by omega)

theorem mkNum_int (neg : Bool) (ids : Str) :
    mkNum neg ids [] none =
      .num false (if neg then -(digitsVal ids : Int) else (digitsVal ids : Int)) 0 := by
  unfold mkNum
  simp

theorem finishNum_delim (neg : Bool) (ids : Str) (rest : Str) (hr : NumDelim rest) :
    finishNum neg ids [] rest = some (mkNum neg ids [] none, rest) := by
  cases rest with
  | nil => rfl
  | cons e r =>
    obtain ⟨-, -, he, hE⟩ := hr e rfl
    unfold finishNum
    dsimp only
    rw [if_neg (by rintro (h | h) <;> [exact he h; exact hE h])]

theorem parseNumber_intChars (m : Int) (rest : Str) (hr : NumDelim rest) :
    parseNumber (intChars m ++ rest) = some (.num false m 0, rest) := by
  obtain ⟨hne, hdig, hval, hhead⟩ := natChars_spec m.natAbs
  have hspan : (natChars m.natAbs ++ rest).span isDigitCh = (natChars m.natAbs, rest) :=
    span_exact _ _ _ hdig (fun c hc => (hr c hc).1)
  have hlead : ¬ ((natChars m.natAbs).length > 1 ∧ (natChars m.natAbs).head? = some '0') := by
    rintro ⟨hlen, hhd⟩
    cases hcc : natChars m.natAbs with
    | nil => exact hne hcc
    | cons d ds =>
      rw [hcc] at hhd
      cases hhd
      by_cases hten : 10 ≤ m.natAbs
      · exact hhead hten _ _ hcc rfl
      · have hone : natChars m.natAbs = [Char.ofNat (48 + m.natAbs)] := by
          unfold natChars natCharsAux
          simp [Nat.lt_of_not_le, hten]
        rw [hone] at hlen
        simp at hlen
  have hcore : ∀ neg input, negSign input = (neg, natChars m.natAbs ++ rest) →
      ((if neg then -(m.natAbs : Int) else (m.natAbs : Int)) = m) →
      parseNumber input = some (.num false m 0, rest) := by
    intro neg input hns hm
    unfold parseNumber
    rw [hns]
    dsimp only
    rw [hspan]
    dsimp only
    rw [if_neg (by simp [List.isEmpty_iff, hne]), if_neg hlead]
    cases rest with
    | nil =>
      dsimp only
      rw [finishNum_delim neg _ [] (fun c hc => by cases hc), mkNum_int, hval, hm]
    | cons c r =>
      dsimp only
      rw [if_neg ((hr c rfl).2.1), finishNum_delim neg _ _ hr, mkNum_int, hval, hm]
  by_cases hm : m < 0
  · apply hcore true
    · unfold intChars
      rw [if_pos hm]
      show negSign ('-' :: (natChars m.natAbs ++ rest)) = _
      unfold negSign
      simp
    · show -(m.natAbs : Int) = m
      omega
  · apply hcore false
    · unfold intChars
      rw [if_neg hm]
      cases hcc : natChars m.natAbs with
      | nil => exact absurd hcc hne
      | cons d ds =>
        show negSign (d :: (ds ++ rest)) = _
        unfold negSign
        dsimp only
        rw [if_neg (digitCh_ne d (hdig d (by rw [hcc]; simp)) '-' (Or.inl (by decide)))]
        simp [hcc]
    · show (m.natAbs : Int) = m
      omega

theorem printableNoEsc_spec (c : Char) (h : printableNoEsc c = true) :
    32 ≤ c.toNat ∧ c.toNat ≤ 126 ∧ c ≠ '"' ∧ c ≠ '\\' := by
  simpa [printableNoEsc] using h

theorem escapeChar_plain (c : Char) (h : printableNoEsc c = true) : escapeChar c = [c] := by
  obtain ⟨h32, h126, hq, hb⟩ := printableNoEsc_spec c h
  unfold escapeChar
  rw [if_neg hq, if_neg hb,
    if_neg (char_ne_of_toNat_ne (by rw [show ('\n').toNat = 10 from rfl]; omega)),
    if_neg (char_ne_of_toNat_ne (by rw [show ('\t').toNat = 9 from rfl]; omega)),
    if_neg (char_ne_of_toNat_ne (by rw [show ('\r').toNat = 13 from rfl]; omega)),
    if_neg (char_ne_of_toNat_ne (by rw [charToNat_ofNat_small 8 (by omega)]; omega)),
    if_neg (char_ne_of_toNat_ne (by rw [charToNat_ofNat_small 12 (by omega)]; omega)),
    if_neg (by omega), if_pos (by omega)]

theorem flatMap_escape_plain (s : Str) (h : ∀ c ∈ s, printableNoEsc c = true) :
    s.flatMap escapeChar = s := by
  induction s with
  | nil => rfl
  | cons c cs ih =>
    rw [List.flatMap_cons, escapeChar_plain c (h c (by simp)),
      ih (fun d hd => h d (by simp [hd]))]
    rfl

theorem parseStrBody_plain (s : Str) : ∀ fuel rest, (∀ c ∈ s, printableNoEsc c = true) →
    s.length + 1 ≤ fuel → parseStrBody fuel (s ++ '"' :: rest) = some (s, rest) := by
  induction s with
  | nil =>
    intro fuel rest h hf
    cases fuel with
    | zero => omega
    | succ f =>
      show parseStrBody (f + 1) ('"' :: rest) = _
      unfold parseStrBody
      rw [if_pos rfl]
  | cons c cs ih =>
    intro fuel rest h hf
    obtain ⟨h32, h126, hq, hb⟩ := printableNoEsc_spec c (h c (by simp))
    cases fuel with
    | zero => simp at hf
    | succ f =>
      show parseStrBody (f + 1) (c :: (cs ++ '"' :: rest)) = _
      unfold parseStrBody
      rw [if_neg hq, if_neg hb, if_neg (by omega),
        ih f rest (fun d hd => h d (by simp [hd])) (by simp at hf; omega)]

theorem renderStr_parse (s rest : Str) (fuel : Nat) (h : ∀ c ∈ s, printableNoEsc c = true)
    (hf : s.length + 1 ≤ fuel) :
    parseStrBody fuel (List.drop 1 (renderStr s) ++ rest) = some (s, rest) := by
  have hdrop : List.drop 1 (renderStr s) = s.flatMap escapeChar ++ ['"'] := rfl
  rw [hdrop, flatMap_escape_plain s h, List.append_assoc]
  exact parseStrBody_plain s fuel rest h hf

theorem dset_not_mem (d : Dict) (k : Str) (v : Json) (h : k ∉ d.map Prod.fst) :
    dset d k v = d ++ [(k, v)] := by
  induction d with
  | nil => rfl
  | cons kv rest ih =>
    obtain ⟨k₀, v₀⟩ := kv
    simp only [List.map_cons, List.mem_cons] at h
    push_neg at h
    unfold dset
    rw [if_neg (fun he => h.1 he.symm), ih h.2]
    rfl

theorem foldl_dset_append : ∀ (l : List (Str × Json)) (acc : Dict),
    (∀ k ∈ l.map Prod.fst, k ∉ acc.map Prod.fst) → (l.map Prod.fst).Nodup →
    l.foldl (fun d kv => dset d kv.1 kv.2) acc = acc ++ l := by
  intro l
  induction l with
  | nil => intro acc _ _; simp
  | cons kv rest ih =>
    intro acc hdisj hnd
    obtain ⟨k, v⟩ := kv
    simp only [List.foldl_cons]
    rw [dset_not_mem acc k v (hdisj k (by simp))]
    rw [ih (acc ++ [(k, v)]) ?_ ?_]
    · simp
    · intro k' hk'
      simp only [List.map_cons] at hdisj hnd
      simp only [List.map_append, List.mem_append, List.map_cons]
      rintro (hk1 | hk2)
      · exact hdisj k' (List.mem_cons_of_mem _ hk') hk1
      · simp at hk2
        exact (List.nodup_cons.mp hnd).1 (hk2 ▸ hk')
    · simp only [List.map_cons] at hnd
      exact (List.nodup_cons.mp hnd).2

theorem pyDict_self (l : List (Str × Json)) (h : (l.map Prod.fst).Nodup) : pyDict l = l := by
  unfold pyDict
  rw [foldl_dset_append l [] (by simp) h]
  rfl

theorem fsizeV_pos (v : Json) : 1 ≤ fsizeV v := by
  cases v <;> simp [fsizeV]

theorem digit_head_facts (d : Char) (hd : isDigitCh d = true) :
    isWsChar d = false ∧ d ≠ ']' ∧ d ≠ '"' ∧ d ≠ '[' ∧ d ≠ lbrace ∧
    d ≠ 't' ∧ d ≠ 'f' ∧ d ≠ 'n' ∧ d ≠ 'N' ∧ d ≠ 'I' ∧ d ≠ '-' ∧ d ≠ ',' ∧ d ≠ rbrace := by
  rw [isDigitCh_iff] at hd
  have h32 : (' ').toNat = 32 := rfl
  have h9 : ('\t').toNat = 9 := rfl
  have h10 : ('\n').toNat = 10 := rfl
  have h13 : ('\r').toNat = 13 := rfl
  refine ⟨?_, ?_, ?_, ?_, ?_, ?_, ?_, ?_, ?_, ?_, ?_, ?_, ?_⟩
  · unfold isWsChar
    rw [decide_eq_false (char_ne_of_toNat_ne (by rw [h32]; omega)),
      decide_eq_false (char_ne_of_toNat_ne (by rw [h9]; omega)),
      decide_eq_false (char_ne_of_toNat_ne (by rw [h10]; omega)),
      decide_eq_false (char_ne_of_toNat_ne (by rw [h13]; omega))]
    rfl
  all_goals exact char_ne_of_toNat_ne (by
    first
      | (rw [show (']').toNat = 93 from rfl]; omega)
      | (rw [show ('"').toNat = 34 from rfl]; omega)
      | (rw [show ('[').toNat = 91 from rfl]; omega)
      | (rw [show lbrace.toNat = 123 from rfl]; omega)
      | (rw [show ('t').toNat = 116 from rfl]; omega)
      | (rw [show ('f').toNat = 102 from rfl]; omega)
      | (rw [show ('n').toNat = 110 from rfl]; omega)
      | (rw [show ('N').toNat = 78 from rfl]; omega)
      | (rw [show ('I').toNat = 73 from rfl]; omega)
      | (rw [show ('-').toNat = 45 from rfl]; omega)
      | (rw [show (',').toNat = 44 from rfl]; omega)
      | (rw [show rbrace.toNat = 125 from rfl]; omega))

theorem skipWs_cons_not_ws (c : Char) (t : Str) (h : isWsChar c = false) :
    skipWs (c :: t) = c :: t := by
  unfold skipWs
  rw [List.dropWhile_cons, if_neg (by rw [h]; simp)]

theorem pyStartsWith_self_append (pre rest : Str) : pyStartsWith (pre ++ rest) pre = true :=
  isPrefixOf_append_self pre rest

theorem pyStartsWith_cons_ne (k0 : Char) (ks : Str) (d : Char) (X : Str) (h : k0 ≠ d) :
    pyStartsWith (d :: X) (k0 :: ks) = false := by
  unfold pyStartsWith
  show (k0 == d && List.isPrefixOf ks X) = false
  rw [beq_eq_false_iff_ne.mpr h]
  rfl

theorem wf_num (isF : Bool) (m : Int) (s : Nat) (h : wfJson (.num isF m s) = true) :
    isF = false ∧ s = 0 := by
  simp [wfJson] at h
  exact h

theorem render_head (v : Json) (hwf : wfJson v = true) :
    ∃ c t, render v = c :: t ∧ isWsChar c = false ∧ c ≠ ']' := by
  cases v with
  | null => exact ⟨'n', _, rfl, by decide, by decide⟩
  | bool b =>
    cases b with
    | false => exact ⟨'f', _, rfl, by decide, by decide⟩
    | true => exact ⟨'t', _, rfl, by decide, by decide⟩
  | num isF m s =>
    obtain ⟨hf, hs⟩ := wf_num isF m s hwf
    subst hf
    subst hs
    show ∃ c t, intChars m = c :: t ∧ _
    by_cases hm : m < 0
    · refine ⟨'-', natChars m.natAbs, ?_, by decide, by decide⟩
      unfold intChars
      rw [if_pos hm]
    · obtain ⟨hne, hdig, -, -⟩ := natChars_spec m.natAbs
      cases hcc : natChars m.natAbs with
      | nil => exact absurd hcc hne
      | cons d ds =>
        obtain ⟨hws, hbr, -⟩ := digit_head_facts d (hdig d (by rw [hcc]; simp))
        refine ⟨d, ds, ?_, hws, hbr⟩
        unfold intChars
        rw [if_neg hm, hcc]
  | nan => simp [wfJson] at hwf
  | inf b => simp [wfJson] at hwf
  | str s => exact ⟨'"', _, rfl, by decide, by decide⟩
  | arr xs =>
    cases xs with
    | nil => exact ⟨'[', _, rfl, by decide, by decide⟩
    | cons x xs => exact ⟨'[', _, rfl, by decide, by decide⟩
  | obj kvs =>
    cases kvs with
    | nil => exact ⟨lbrace, _, rfl, by decide, by decide⟩
    | cons kv kvs => exact ⟨lbrace, _, rfl, by decide, by decide⟩

theorem not_eq_true_of_false {b : Bool} (h : b = false) : ¬ (b = true) := by simp [h]

theorem numDelim_of_head (cs : Str)
    (h : ∀ c, cs.head? = some c → (isDigitCh c = false ∧ c ≠ '.' ∧ c ≠ 'e' ∧ c ≠ 'E')) :
    NumDelim cs := h

theorem numDelim_elems (xs : List Json) (rest : Str) :
    NumDelim (renderElemsTail xs ++ ']' :: rest) := by
  cases xs with
  | nil => intro c hc; cases hc; exact ⟨by decide, by decide, by decide, by decide⟩
  | cons y ys => intro c hc; cases hc; exact ⟨by decide, by decide, by decide, by decide⟩

theorem numDelim_members (kvs : List (Str × Json)) (rest : Str) :
    NumDelim (renderMembersTail kvs ++ rbrace :: rest) := by
  cases kvs with
  | nil => intro c hc; cases hc; exact ⟨by decide, by decide, by decide, by decide⟩
  | cons kv kvs => intro c hc; cases hc; exact ⟨by decide, by decide, by decide, by decide⟩

theorem skipWs_space (Z : Str) (h : ∀ c, Z.head? = some c → isWsChar c = false) :
    skipWs (' ' :: Z) = Z := by
  unfold skipWs
  rw [List.dropWhile_cons, if_pos (by decide)]
  exact dropWhile_head_false _ Z h

theorem parse_render : ∀ fuel : Nat,
    (∀ v rest, wfJson v = true → fsizeV v ≤ fuel → NumDelim rest →
      parseVal fuel (render v ++ rest) = some (v, rest)) ∧
    (∀ x xs rest, wfJson x = true → wfElems xs = true → fsizeL (x :: xs) ≤ fuel →
      parseElemsCont fuel (render x ++ (renderElemsTail xs ++ ']' :: rest)) =
        some (x :: xs, rest)) ∧
    (∀ k v kvs rest, k.all printableNoEsc = true → wfJson v = true → wfMembers kvs = true →
      fsizeM ((k, v) :: kvs) ≤ fuel →
      parseMembersCont fuel
          (renderMember (k, v) ++ (renderMembersTail kvs ++ rbrace :: rest)) =
        some ((k, v) :: kvs, rest)) := by
  intro fuel
  induction fuel with
  | zero =>
    refine ⟨fun v rest hwf hfs hnd => ?_, fun x xs rest _ _ hfs => ?_,
      fun k v kvs rest _ _ _ hfs => ?_⟩
    · have := fsizeV_pos v
      omega
    · simp [fsizeL] at hfs
    · simp [fsizeM] at hfs
  | succ fuel ih =>
    obtain ⟨ihV, ihL, ihM⟩ := ih
    refine ⟨?_, ?_, ?_⟩
    · -- parseVal on a rendered value
      intro v rest hwf hfs hnd
      cases v with
      | null =>
        show parseVal (fuel + 1) ('n' :: ("ull".toList ++ rest)) = some (.null, rest)
        simp only [parseVal]
        rw [if_neg (by decide), if_neg (by decide), if_neg (by decide),
          if_neg (not_eq_true_of_false (show pyStartsWith
            ('n' :: ("ull".toList ++ rest)) "true".toList = false from rfl)),
          if_neg (not_eq_true_of_false (show pyStartsWith
            ('n' :: ("ull".toList ++ rest)) "false".toList = false from rfl)),
          if_pos (show pyStartsWith ('n' :: ("ull".toList ++ rest)) "null".toList = true from
            pyStartsWith_self_append "null".toList rest)]
        rfl
      | bool b =>
        cases b with
        | true =>
          show parseVal (fuel + 1) ('t' :: ("rue".toList ++ rest)) = some (.bool true, rest)
          simp only [parseVal]
          rw [if_neg (by decide), if_neg (by decide), if_neg (by decide),
            if_pos (show pyStartsWith ('t' :: ("rue".toList ++ rest)) "true".toList = true from
            pyStartsWith_self_append "true".toList rest)]
          rfl
        | false =>
          show parseVal (fuel + 1) ('f' :: ("alse".toList ++ rest)) = some (.bool false, rest)
          simp only [parseVal]
          rw [if_neg (by decide), if_neg (by decide), if_neg (by decide),
            if_neg (not_eq_true_of_false (show pyStartsWith
              ('f' :: ("alse".toList ++ rest)) "true".toList = false from rfl)),
            if_pos (show pyStartsWith ('f' :: ("alse".toList ++ rest)) "false".toList = true from
              pyStartsWith_self_append "false".toList rest)]
          rfl
      | nan => simp [wfJson] at hwf
      | inf b => simp [wfJson] at hwf
      | num isF m s0 =>
        obtain ⟨hf, hs⟩ := wf_num _ _ _ hwf
        subst hf
        subst hs
        show parseVal (fuel + 1) (intChars m ++ rest) = some (.num false m 0, rest)
        obtain ⟨hne, hdig, -, -⟩ := natChars_spec m.natAbs
        by_cases hm : m < 0
        · have hic : intChars m = '-' :: natChars m.natAbs := by
            unfold intChars
            rw [if_pos hm]
          have hinf : pyStartsWith ('-' :: (natChars m.natAbs ++ rest))
              "-Infinity".toList = false := by
            unfold pyStartsWith
            show (('-' == '-') && List.isPrefixOf "Infinity".toList
              (natChars m.natAbs ++ rest)) = false
            cases hcc : natChars m.natAbs with
            | nil => exact absurd hcc hne
            | cons d ds =>
              obtain ⟨-, -, -, -, -, -, -, -, -, hId, -, -, -⟩ :=
                digit_head_facts d (hdig d (by rw [hcc]; simp))
              rw [List.cons_append]
              show (('-' == '-') && (('I' == d) && _)) = false
              rw [beq_eq_false_iff_ne.mpr (fun he => hId he.symm)]
              rfl
          rw [hic, List.cons_append]
          simp only [parseVal]
          rw [if_neg (by decide), if_neg (by decide), if_neg (by decide),
            if_neg (not_eq_true_of_false (show pyStartsWith
              ('-' :: (natChars m.natAbs ++ rest)) "true".toList = false from rfl)),
            if_neg (not_eq_true_of_false (show pyStartsWith
              ('-' :: (natChars m.natAbs ++ rest)) "false".toList = false from rfl)),
            if_neg (not_eq_true_of_false (show pyStartsWith
              ('-' :: (natChars m.natAbs ++ rest)) "null".toList = false from rfl)),
            if_neg (not_eq_true_of_false (show pyStartsWith
              ('-' :: (natChars m.natAbs ++ rest)) "NaN".toList = false from rfl)),
            if_neg (not_eq_true_of_false (show pyStartsWith
              ('-' :: (natChars m.natAbs ++ rest)) "Infinity".toList = false from rfl)),
            if_neg (not_eq_true_of_false hinf)]
          rw [← List.cons_append, ← hic]
          exact parseNumber_intChars m rest hnd
        · have hic : intChars m = natChars m.natAbs := by
            unfold intChars
            rw [if_neg hm]
          cases hcc : natChars m.natAbs with
          | nil => exact absurd hcc hne
          | cons d ds =>
            obtain ⟨hws, hbr, hq, hlb, hlbr, ht, hf2, hn, hN, hI, hmin, hcm, hrb⟩ :=
              digit_head_facts d (hdig d (by rw [hcc]; simp))
            rw [hic, hcc, List.cons_append]
            simp only [parseVal]
            rw [if_neg hq, if_neg hlb, if_neg hlbr,
              if_neg (not_eq_true_of_false (show pyStartsWith
                (d :: (ds ++ rest)) "true".toList = false from
                pyStartsWith_cons_ne 't' "rue".toList d (ds ++ rest) (fun he => ht he.symm))),
              if_neg (not_eq_true_of_false (show pyStartsWith
                (d :: (ds ++ rest)) "false".toList = false from
                pyStartsWith_cons_ne 'f' "alse".toList d (ds ++ rest) (fun he => hf2 he.symm))),
              if_neg (not_eq_true_of_false (show pyStartsWith
                (d :: (ds ++ rest)) "null".toList = false from
                pyStartsWith_cons_ne 'n' "ull".toList d (ds ++ rest) (fun he => hn he.symm))),
              if_neg (not_eq_true_of_false (show pyStartsWith
                (d :: (ds ++ rest)) "NaN".toList = false from
                pyStartsWith_cons_ne 'N' "aN".toList d (ds ++ rest) (fun he => hN he.symm))),
              if_neg (not_eq_true_of_false (show pyStartsWith
                (d :: (ds ++ rest)) "Infinity".toList = false from
                pyStartsWith_cons_ne 'I' "nfinity".toList d (ds ++ rest) (fun he => hI he.symm))),
              if_neg (not_eq_true_of_false (show pyStartsWith
                (d :: (ds ++ rest)) "-Infinity".toList = false from
                pyStartsWith_cons_ne '-' "Infinity".toList d (ds ++ rest) (fun he => hmin he.symm)))]
            rw [← List.cons_append, ← hcc, ← hic]
            exact parseNumber_intChars m rest hnd
      | str s =>
        have hplain : ∀ c ∈ s, printableNoEsc c = true := by
          simpa [wfJson, List.all_eq_true] using hwf
        show parseVal (fuel + 1) ('"' :: (List.drop 1 (renderStr s) ++ rest)) =
          some (.str s, rest)
        simp only [parseVal]
        rw [if_pos trivial]
        have hlen : (List.drop 1 (renderStr s)).length = s.length + 1 := by
          have hdrop : List.drop 1 (renderStr s) = s.flatMap escapeChar ++ ['"'] := rfl
          rw [hdrop, flatMap_escape_plain s hplain]
          simp
        have hfuel : s.length + 1 ≤ (List.drop 1 (renderStr s) ++ rest).length + 1 := by
          rw [List.length_append, hlen]
          omega
        rw [renderStr_parse s rest _ hplain hfuel]
      | arr xs =>
        cases xs with
        | nil =>
          show parseVal (fuel + 1) ('[' :: (']' :: rest)) = some (.arr [], rest)
          simp only [parseVal]
          rw [if_pos trivial]
          have hsk : skipWs (']' :: rest) = ']' :: rest :=
            skipWs_cons_not_ws ']' rest (by decide)
          simp only [hsk]
          rw [if_pos trivial, if_neg (by decide)]
        | cons x xs =>
          have hwx : wfJson x = true ∧ wfElems xs = true := by
            have hx : wfElems (x :: xs) = true := hwf
            unfold wfElems at hx
            exact Bool.and_eq_true_iff.mp hx
          obtain ⟨c, t, hrx, hcw, hcbr⟩ := render_head x hwx.1
          show parseVal (fuel + 1)
            ('[' :: ((render x ++ renderElemsTail xs ++ [']']) ++ rest)) = _
          have hassoc : (render x ++ renderElemsTail xs ++ [']']) ++ rest =
              render x ++ (renderElemsTail xs ++ ']' :: rest) := by
            simp
          have hsk : skipWs (render x ++ (renderElemsTail xs ++ ']' :: rest)) =
              c :: (t ++ (renderElemsTail xs ++ ']' :: rest)) := by
            rw [hrx, List.cons_append]
            exact skipWs_cons_not_ws c _ hcw
          simp only [parseVal]
          rw [if_pos trivial]
          simp only [hassoc, hsk]
          rw [if_neg hcbr, ← List.cons_append, ← hrx,
            ihL x xs rest hwx.1 hwx.2 (by
              have hv : fsizeV (.arr (x :: xs)) = 1 + fsizeL (x :: xs) := rfl
              omega)]
          rw [if_neg (by decide : ¬(('[' : Char) = '"'))]
      | obj kvs =>
        cases kvs with
        | nil =>
          show parseVal (fuel + 1) (lbrace :: (rbrace :: rest)) = some (.obj [], rest)
          simp only [parseVal]
          rw [if_neg (by decide), if_neg (by decide), if_pos trivial]
          have hsk : skipWs (rbrace :: rest) = rbrace :: rest :=
            skipWs_cons_not_ws rbrace rest (by decide)
          simp only [hsk]
          rw [if_pos trivial]
        | cons kv kvs =>
          obtain ⟨k, v⟩ := kv
          have hwm : wfMembers ((k, v) :: kvs) = true ∧
              (((k, v) :: kvs).map Prod.fst).Nodup := by
            have hx : (wfMembers ((k, v) :: kvs) &&
                decide ((((k, v) :: kvs).map Prod.fst).Nodup)) = true := hwf
            have h2 := Bool.and_eq_true_iff.mp hx
            exact ⟨h2.1, of_decide_eq_true h2.2⟩
          have hkv : k.all printableNoEsc = true ∧ wfJson v = true ∧ wfMembers kvs = true := by
            have hx : (k.all printableNoEsc && wfJson v && wfMembers kvs) = true := hwm.1
            have h2 := Bool.and_eq_true_iff.mp hx
            have h3 := Bool.and_eq_true_iff.mp h2.1
            exact ⟨h3.1, h3.2, h2.2⟩
          obtain ⟨t0, ht0⟩ : ∃ t0, renderMember (k, v) = '"' :: t0 := ⟨_, rfl⟩
          show parseVal (fuel + 1)
            (lbrace :: ((renderMember (k, v) ++ renderMembersTail kvs ++ [rbrace]) ++ rest)) = _
          have hassoc : (renderMember (k, v) ++ renderMembersTail kvs ++ [rbrace]) ++ rest =
              renderMember (k, v) ++ (renderMembersTail kvs ++ rbrace :: rest) := by
            simp
          have hsk : skipWs (renderMember (k, v) ++ (renderMembersTail kvs ++ rbrace :: rest)) =
              '"' :: (t0 ++ (renderMembersTail kvs ++ rbrace :: rest)) := by
            rw [ht0, List.cons_append]
            exact skipWs_cons_not_ws '"' _ (by decide)
          simp only [parseVal]
          rw [if_neg (by decide), if_neg (by decide), if_pos trivial]
          simp only [hassoc, hsk]
          rw [if_neg (by decide), ← List.cons_append, ← ht0,
            ihM k v kvs rest hkv.1 hkv.2.1 hkv.2.2 (by
              have hv : fsizeV (.obj ((k, v) :: kvs)) = 1 + fsizeM ((k, v) :: kvs) := rfl
              omega)]
          show some (Json.obj (pyDict ((k, v) :: kvs)), rest) = _
          rw [pyDict_self _ hwm.2]
    · -- parseElemsCont on a rendered first element and rendered tail
      intro x xs rest hwx hwxs hfs
      have hndB : NumDelim (renderElemsTail xs ++ ']' :: rest) := numDelim_elems xs rest
      have hfx : fsizeV x ≤ fuel := by
        have h1 : fsizeL (x :: xs) = 1 + fsizeV x + fsizeL xs := rfl
        omega
      have hpv : parseVal fuel (render x ++ (renderElemsTail xs ++ ']' :: rest)) =
          some (x, renderElemsTail xs ++ ']' :: rest) := ihV x _ hwx hfx hndB
      simp only [parseElemsCont, hpv]
      cases xs with
      | nil =>
        have hsk : skipWs (renderElemsTail ([] : List Json) ++ ']' :: rest) = ']' :: rest := by
          show skipWs (']' :: rest) = ']' :: rest
          exact skipWs_cons_not_ws ']' rest (by decide)
        simp only [hsk]
        rfl
      | cons y ys =>
        have hwy : wfJson y = true ∧ wfElems ys = true := by
          have hx : wfElems (y :: ys) = true := hwxs
          unfold wfElems at hx
          exact Bool.and_eq_true_iff.mp hx
        obtain ⟨c, t, hry, hcw, hcbr⟩ := render_head y hwy.1
        have hsk : skipWs (renderElemsTail (y :: ys) ++ ']' :: rest) =
            ',' :: (' ' :: ((render y ++ renderElemsTail ys) ++ ']' :: rest)) := by
          show skipWs (',' :: (' ' :: ((render y ++ renderElemsTail ys) ++ ']' :: rest))) = _
          exact skipWs_cons_not_ws ',' _ (by decide)
        have hassoc2 : (render y ++ renderElemsTail ys) ++ ']' :: rest =
            render y ++ (renderElemsTail ys ++ ']' :: rest) := by
          simp
        have hsk2 : skipWs (' ' :: (render y ++ (renderElemsTail ys ++ ']' :: rest))) =
            render y ++ (renderElemsTail ys ++ ']' :: rest) := by
          refine skipWs_space _ ?_
          intro c0 hc0
          have hz : render y ++ (renderElemsTail ys ++ ']' :: rest) =
              c :: (t ++ (renderElemsTail ys ++ ']' :: rest)) := by
            rw [hry, List.cons_append]
          rw [hz] at hc0
          cases hc0
          exact hcw
        have hih : parseElemsCont fuel (render y ++ (renderElemsTail ys ++ ']' :: rest)) =
            some (y :: ys, rest) :=
          ihL y ys rest hwy.1 hwy.2 (by
            have h1 : fsizeL (x :: y :: ys) = 1 + fsizeV x + fsizeL (y :: ys) := rfl
            have h2 := fsizeV_pos x
            omega)
        simp only [hsk, hassoc2, hsk2, hih]
    · -- parseMembersCont on a rendered first member and rendered tail
      intro k v kvs rest hka hwv hwm hfs
      have hk : ∀ c ∈ k, printableNoEsc c = true := List.all_eq_true.mp hka
      have hfv : fsizeV v ≤ fuel := by
        have h1 : fsizeM ((k, v) :: kvs) = 1 + fsizeV v + fsizeM kvs := rfl
        omega
      have hdropk : List.drop 1 (renderStr k) = k.flatMap escapeChar ++ ['"'] := rfl
      have hlen : (List.drop 1 (renderStr k)).length = k.length + 1 := by
        rw [hdropk, flatMap_escape_plain k hk]
        simp
      have hshape : renderMember (k, v) ++ (renderMembersTail kvs ++ rbrace :: rest) =
          '"' :: (List.drop 1 (renderStr k) ++
            ((':' :: ' ' :: render v) ++ (renderMembersTail kvs ++ rbrace :: rest))) := by
        rw [hdropk]
        show ((('"' :: k.flatMap escapeChar) ++ ['"']) ++ (':' :: ' ' :: render v)) ++
            (renderMembersTail kvs ++ rbrace :: rest) = _
        simp only [List.cons_append, List.append_assoc]
      have hps : parseStrBody
          ((List.drop 1 (renderStr k) ++
            ((':' :: ' ' :: render v) ++ (renderMembersTail kvs ++ rbrace :: rest))).length + 1)
          (List.drop 1 (renderStr k) ++
            ((':' :: ' ' :: render v) ++ (renderMembersTail kvs ++ rbrace :: rest))) =
          some (k, (':' :: ' ' :: render v) ++ (renderMembersTail kvs ++ rbrace :: rest)) := by
        refine renderStr_parse k _ _ hk ?_
        rw [List.length_append, hlen]
        omega
      simp only [parseMembersCont, hshape, hps]
      have hy : (':' :: ' ' :: render v) ++ (renderMembersTail kvs ++ rbrace :: rest) =
          ':' :: (' ' :: (render v ++ (renderMembersTail kvs ++ rbrace :: rest))) := by
        simp only [List.cons_append]
      have hsk1 : skipWs (':' :: (' ' :: (render v ++ (renderMembersTail kvs ++ rbrace :: rest)))) =
          ':' :: (' ' :: (render v ++ (renderMembersTail kvs ++ rbrace :: rest))) :=
        skipWs_cons_not_ws ':' _ (by decide)
      simp only [hy, hsk1]
      obtain ⟨cv, tv, hrv, hvw, hvbr⟩ := render_head v hwv
      have hsk2 : skipWs (' ' :: (render v ++ (renderMembersTail kvs ++ rbrace :: rest))) =
          render v ++ (renderMembersTail kvs ++ rbrace :: rest) := by
        refine skipWs_space _ ?_
        intro c0 hc0
        have hz : render v ++ (renderMembersTail kvs ++ rbrace :: rest) =
            cv :: (tv ++ (renderMembersTail kvs ++ rbrace :: rest)) := by
          rw [hrv, List.cons_append]
        rw [hz] at hc0
        cases hc0
        exact hvw
      have hpv : parseVal fuel (render v ++ (renderMembersTail kvs ++ rbrace :: rest)) =
          some (v, renderMembersTail kvs ++ rbrace :: rest) :=
        ihV v _ hwv hfv (numDelim_members kvs rest)
      simp only [hsk2, hpv]
      cases kvs with
      | nil =>
        have hsk3 : skipWs (renderMembersTail ([] : List (Str × Json)) ++ rbrace :: rest) =
            rbrace :: rest := by
          show skipWs (rbrace :: rest) = rbrace :: rest
          exact skipWs_cons_not_ws rbrace rest (by decide)
        simp only [hsk3]
        rfl
      | cons kv2 kvs2 =>
        obtain ⟨k2, v2⟩ := kv2
        have hwm2 : k2.all printableNoEsc = true ∧ wfJson v2 = true ∧ wfMembers kvs2 = true := by
          have hx : (k2.all printableNoEsc && wfJson v2 && wfMembers kvs2) = true := hwm
          have h2 := Bool.and_eq_true_iff.mp hx
          have h3 := Bool.and_eq_true_iff.mp h2.1
          exact ⟨h3.1, h3.2, h2.2⟩
        have hassoc3 : (renderMember (k2, v2) ++ renderMembersTail kvs2) ++ rbrace :: rest =
            renderMember (k2, v2) ++ (renderMembersTail kvs2 ++ rbrace :: rest) := by
          simp
        have hsk3 : skipWs (renderMembersTail ((k2, v2) :: kvs2) ++ rbrace :: rest) =
            ',' :: (' ' :: ((renderMember (k2, v2) ++ renderMembersTail kvs2) ++
              rbrace :: rest)) := by
          show skipWs (',' :: (' ' :: ((renderMember (k2, v2) ++ renderMembersTail kvs2) ++
            rbrace :: rest))) = _
          exact skipWs_cons_not_ws ',' _ (by decide)
        obtain ⟨t2, ht2⟩ : ∃ t2, renderMember (k2, v2) = '"' :: t2 := ⟨_, rfl⟩
        have hsk4 : skipWs (' ' :: (renderMember (k2, v2) ++
            (renderMembersTail kvs2 ++ rbrace :: rest))) =
            renderMember (k2, v2) ++ (renderMembersTail kvs2 ++ rbrace :: rest) := by
          refine skipWs_space _ ?_
          intro c0 hc0
          have hz : renderMember (k2, v2) ++ (renderMembersTail kvs2 ++ rbrace :: rest) =
              '"' :: (t2 ++ (renderMembersTail kvs2 ++ rbrace :: rest)) := by
            rw [ht2, List.cons_append]
          rw [hz] at hc0
          cases hc0
          decide
        have hihm : parseMembersCont fuel (renderMember (k2, v2) ++
            (renderMembersTail kvs2 ++ rbrace :: rest)) = some ((k2, v2) :: kvs2, rest) :=
          ihM k2 v2 kvs2 rest hwm2.1 hwm2.2.1 hwm2.2.2 (by
            have h1 : fsizeM ((k, v) :: (k2, v2) :: kvs2) =
                1 + fsizeV v + fsizeM ((k2, v2) :: kvs2) := rfl
            have h2 := fsizeV_pos v
            omega)
        simp only [hsk3, hassoc3, hsk4, hihm]

theorem intChars_len (m : Int) : 1 ≤ (intChars m).length := by
  obtain ⟨hne, -, -, -⟩ := natChars_spec m.natAbs
  have hl : 1 ≤ (natChars m.natAbs).length := List.length_pos.mpr hne
  unfold intChars
  split_ifs
  · simp
  · omega

theorem renderMember_len (k : Str) (v : Json) :
    (render v).length + 2 ≤ (renderMember (k, v)).length := by
  show (render v).length + 2 ≤ (renderStr k ++ ':' :: ' ' :: render v).length
  rw [List.length_append]
  simp

theorem fsize_le : ∀ fuel : Nat,
    (∀ v, fsizeV v ≤ fuel → wfJson v = true → fsizeV v ≤ (render v).length) ∧
    (∀ xs, fsizeL xs ≤ fuel → wfElems xs = true → fsizeL xs ≤ (renderElemsTail xs).length) ∧
    (∀ kvs, fsizeM kvs ≤ fuel → wfMembers kvs = true →
      fsizeM kvs ≤ (renderMembersTail kvs).length) := by
  intro fuel
  induction fuel with
  | zero =>
    refine ⟨?_, ?_, ?_⟩
    · intro v hv _
      have := fsizeV_pos v
      omega
    · intro xs hxs _
      omega
    · intro kvs hkvs _
      omega
  | succ fuel ih =>
    obtain ⟨ihV, ihL, ihM⟩ := ih
    refine ⟨?_, ?_, ?_⟩
    · intro v hv hwf
      cases v with
      | null => simp [fsizeV, render]
      | bool b => cases b <;> simp [fsizeV, render]
      | nan => simp [wfJson] at hwf
      | inf b => simp [wfJson] at hwf
      | num isF m s0 =>
        obtain ⟨hf, hs⟩ := wf_num _ _ _ hwf
        subst hf
        subst hs
        have := intChars_len m
        show fsizeV (.num false m 0) ≤ (intChars m).length
        have h1 : fsizeV (.num false m 0) = 1 := rfl
        omega
      | str s =>
        show fsizeV (.str s) ≤ (renderStr s).length
        have h1 : fsizeV (.str s) = 1 := rfl
        have h2 : (renderStr s).length = (s.flatMap escapeChar ++ ['"']).length + 1 := by
          show (('"' :: s.flatMap escapeChar) ++ ['"']).length = _
          simp
        omega
      | arr xs =>
        cases xs with
        | nil => simp [fsizeV, fsizeL, render]
        | cons x xs =>
          have hwx : wfJson x = true ∧ wfElems xs = true := by
            have hx : wfElems (x :: xs) = true := hwf
            unfold wfElems at hx
            exact Bool.and_eq_true_iff.mp hx
          have h1 : fsizeV (.arr (x :: xs)) = 1 + (1 + fsizeV x + fsizeL xs) := rfl
          have h2 : (render (.arr (x :: xs))).length =
              (render x ++ renderElemsTail xs ++ [']']).length + 1 := by
            show (('[' :: (render x ++ renderElemsTail xs ++ [']']))).length = _
            simp
          have h3 := ihV x (by omega) hwx.1
          have h4 := ihL xs (by omega) hwx.2
          rw [h1, h2, List.length_append, List.length_append]
          simp
          omega
      | obj kvs =>
        cases kvs with
        | nil => simp [fsizeV, fsizeM, render]
        | cons kv kvs =>
          obtain ⟨k, v⟩ := kv
          have hwm0 : wfMembers ((k, v) :: kvs) = true := by
            have hx : (wfMembers ((k, v) :: kvs) &&
                decide ((((k, v) :: kvs).map Prod.fst).Nodup)) = true := hwf
            exact (Bool.and_eq_true_iff.mp hx).1
          have hkv : k.all printableNoEsc = true ∧ wfJson v = true ∧ wfMembers kvs = true := by
            have hx : (k.all printableNoEsc && wfJson v && wfMembers kvs) = true := hwm0
            have h2 := Bool.and_eq_true_iff.mp hx
            have h3 := Bool.and_eq_true_iff.mp h2.1
            exact ⟨h3.1, h3.2, h2.2⟩
          have h1 : fsizeV (.obj ((k, v) :: kvs)) = 1 + (1 + fsizeV v + fsizeM kvs) := rfl
          have h2 : (render (.obj ((k, v) :: kvs))).length =
              (renderMember (k, v) ++ renderMembersTail kvs ++ [rbrace]).length + 1 := by
            show ((lbrace :: (renderMember (k, v) ++ renderMembersTail kvs ++ [rbrace]))).length = _
            simp
          have h3 := ihV v (by omega) hkv.2.1
          have h4 := ihM kvs (by omega) hkv.2.2
          have h5 := renderMember_len k v
          rw [h1, h2, List.length_append, List.length_append]
          simp
          omega
    · intro xs hxs hwxs
      cases xs with
      | nil => simp [fsizeL]
      | cons x xs =>
        have hwx : wfJson x = true ∧ wfElems xs = true := by
          unfold wfElems at hwxs
          exact Bool.and_eq_true_iff.mp hwxs
        have h1 : fsizeL (x :: xs) = 1 + fsizeV x + fsizeL xs := rfl
        have h2 : (renderElemsTail (x :: xs)).length =
            (render x ++ renderElemsTail xs).length + 2 := by
          show ((',' :: ' ' :: (render x ++ renderElemsTail xs))).length = _
          simp
        have h3 := ihV x (by omega) hwx.1
        have h4 := ihL xs (by omega) hwx.2
        rw [h1, h2, List.length_append]
        omega
    · intro kvs hkvs hwm
      cases kvs with
      | nil => simp [fsizeM]
      | cons kv kvs =>
        obtain ⟨k, v⟩ := kv
        have hkv : k.all printableNoEsc = true ∧ wfJson v = true ∧ wfMembers kvs = true := by
          have hx : (k.all printableNoEsc && wfJson v && wfMembers kvs) = true := hwm
          have h2 := Bool.and_eq_true_iff.mp hx
          have h3 := Bool.and_eq_true_iff.mp h2.1
          exact ⟨h3.1, h3.2, h2.2⟩
        have h1 : fsizeM ((k, v) :: kvs) = 1 + fsizeV v + fsizeM kvs := rfl
        have h2 : (renderMembersTail ((k, v) :: kvs)).length =
            (renderMember (k, v) ++ renderMembersTail kvs).length + 2 := by
          show ((',' :: ' ' :: (renderMember (k, v) ++ renderMembersTail kvs))).length = _
          simp
        have h3 := ihV v (by omega) hkv.2.1
        have h4 := ihM kvs (by omega) hkv.2.2
        have h5 := renderMember_len k v
        rw [h1, h2, List.length_append]
        omega

/-- `json.loads (json.dumps v) = v` for well-formed values. -/
theorem jsonLoads_render (v : Json) (hwf : wfJson v = true) :
    jsonLoads (render v) = some v := by
  obtain ⟨c, t, hrv, hcw, hcbr⟩ := render_head v hwf
  have hsk : skipWs (render v) = render v := by
    rw [hrv]
    exact skipWs_cons_not_ws c t hcw
  have hfs : fsizeV v ≤ (render v).length + 1 := by
    have h := (fsize_le (fsizeV v)).1 v (le_refl _) hwf
    omega
  have hnd : NumDelim ([] : Str) := by
    intro c0 hc0
    simp at hc0
  have hpv : parseVal ((render v).length + 1) (render v ++ []) = some (v, []) :=
    (parse_render ((render v).length + 1)).1 v [] hwf hfs hnd
  rw [List.append_nil] at hpv
  unfold jsonLoads
  rw [hsk, hpv]
  rfl

/-! ## C8: the token endpoint -/

/-- C8 counterexample: the claim fails for the deployed `/api/token`
serverless endpoint (`api/token.py`): a POST request is rejected with
status 405 (only GET is handled), so no POSTed `userDetails` object is ever
embedded, and two calls with distinct session ids still return the same
constant room name `"cheeko-room"`, not a fresh one per call. -/
theorem c8_counterexample :
    tokenHandler "POST".toList true "aabbccddeeff0011".toList = ⟨405, none, none⟩ ∧
    (tokenHandler "GET".toList true "aabbccddeeff0011".toList).room =
      (tokenHandler "GET".toList true "0123456789abcdef".toList).room ∧
    "aabbccddeeff0011".toList.take 8 ≠ "0123456789abcdef".toList.take 8 :=
  ⟨rfl, rfl, by decide⟩

/-- C8 (corrected): the property holds of the aiohttp endpoint
(`create_token` in `agent/server.py`, reached by POST `/api/token` on that
server): for a non-empty `userDetails` object (well-formed: integer
numbers, printable strings, distinct keys), the token's metadata claim is
`json.dumps` of the object and `json.loads` of it reproduces the object
exactly, and two calls whose session ids (first 8 uuid hex digits) differ
get distinct room names.  The deployed serverless variant `api/token.py`
instead rejects POST with 405 and always uses the constant room
`"cheeko-room"`. -/
theorem c8_metadata_roundtrip_fresh_rooms (u1 u2 : Str) (ud : Dict)
    (hne : ud ≠ []) (hwf : wfJson (.obj ud) = true) :
    (∃ ms, (createToken u1 (some (.obj ud))).tokenMetadata = some ms ∧
        jsonLoads ms = some (.obj ud)) ∧
    (u1.take 8 ≠ u2.take 8 →
      (createToken u1 (some (.obj ud))).roomName ≠
        (createToken u2 (some (.obj ud))).roomName) := by
  cases ud with
  | nil => exact absurd rfl hne
  | cons kv kvs =>
    constructor
    · exact ⟨jsonDumps (.obj (kv :: kvs)), rfl, jsonLoads_render _ hwf⟩
    · intro hne8 he
      have h1 : (createToken u1 (some (.obj (kv :: kvs)))).roomName =
          "cheeko-room-".toList ++ u1.take 8 := rfl
      have h2 : (createToken u2 (some (.obj (kv :: kvs)))).roomName =
          "cheeko-room-".toList ++ u2.take 8 := rfl
      rw [h1, h2] at he
      exact hne8 (List.append_cancel_left he)

/-- C8 witness: the scenario of the spec, `userDetails = {"name": "Priya"}`,
with two concrete distinct session ids. -/
theorem c8_witness :
    ([(("name".toList : Str), Json.str "Priya".toList)] : Dict) ≠ [] ∧
    wfJson (.obj [("name".toList, Json.str "Priya".toList)]) = true ∧
    ((∃ ms, (createToken "aabbccddeeff0011".toList
        (some (.obj [("name".toList, Json.str "Priya".toList)]))).tokenMetadata = some ms ∧
        jsonLoads ms = some (.obj [("name".toList, Json.str "Priya".toList)])) ∧
     ("aabbccddeeff0011".toList.take 8 ≠ "0123456789abcdef".toList.take 8 →
        (createToken "aabbccddeeff0011".toList
            (some (.obj [("name".toList, Json.str "Priya".toList)]))).roomName ≠
          (createToken "0123456789abcdef".toList
            (some (.obj [("name".toList, Json.str "Priya".toList)]))).roomName)) :=
  ⟨by decide, by rfl,
    c8_metadata_roundtrip_fresh_rooms "aabbccddeeff0011".toList "0123456789abcdef".toList
      [("name".toList, Json.str "Priya".toList)] (by decide) (by rfl)⟩
